import Mathlib

/-!
# Verification of the mugen-webui segment filtering and sampling engine

Shallow embedding of the core filtering/sampling classes of the repository:
`FilteredVideoSegment` (mugen/video/segments/VideoSegment.py),
`FilteredVideoSource` and `FilteredVideoSourceList` (mugen/video/sources/VideoSource.py).

Modelling decisions:
* Python float times and durations are modelled as exact rationals (`ℚ`).
* The Python dict `FilteredVideoSegment.filters` is modelled as an association
  list with dict semantics (`dset` overwrites in place, appends fresh keys at
  the end; `dlookup` finds the unique entry).
* The tri-state `rejected` field (`None` / `True` / `False`) is `Option Bool`.
* Exceptions (`SegmentNotFoundError`, numpy `choice` on an empty list) are
  modelled by an `Option` result; `none` is the raised-exception case.
* Randomness (`numpy.random.choice`) is modelled by an oracle index reduced
  modulo the number of candidates; the probability vector the code hands to
  `choice` is exposed as `sampleProbs`.
* Python reference identity (`is not`) in the repeat cascade is modelled as
  structural equality; in every state built by the constructor the segments of
  one source have pairwise distinct time ranges, so the two coincide.
-/

namespace Mugen

/-- Lookup in the insertion-ordered association-list model of a Python dict
(used for `FilteredVideoSegment.filters` and `FilteredVideoSource.segments`). -/
def dlookup {α β : Type} [DecidableEq α] (k : α) (m : List (α × β)) : Option β :=
  (m.find? (fun p => p.1 = k)).map (fun p => p.2)

/-- Assignment `d[k] = v` on the Python-dict model: overwrite in place if the key is
present, append at the end otherwise. -/
def dset {α β : Type} [DecidableEq α] (k : α) (v : β) (m : List (α × β)) :
    List (α × β) :=
  if m.any (fun p => p.1 = k) then
    m.map (fun p => if p.1 = k then (k, v) else p)
  else
    m ++ [(k, v)]

/-- A named video filter (`mugen.mixins.Filterable.Filter`, not under `src/`).
Modelled from the spec: a predicate is a named pure boolean function of the
segment, determined by the segment's `(file, start_time, end_time)` triple. -/
structure VFilter where
  name : String
  fn : String → ℚ → ℚ → Bool

/-- Python `check_if_ranges_overlap` (mugen/utilities/general.py, not under `src/`).
Modelled from the spec: segments of the same file overlap iff their half-open
time ranges `[start, end)` intersect. -/
def rangesOverlap (aStart aEnd bStart bEnd : ℚ) : Prop :=
  aStart < bEnd ∧ bStart < aEnd

instance (a b c d : ℚ) : Decidable (rangesOverlap a b c d) := by
  unfold rangesOverlap; infer_instance

/-- Python `FilteredVideoSegment` (VideoSegment.py lines 238-290). The Python `end`
attribute is called `stop` because `end` is a Lean keyword. -/
structure FilteredVideoSegment where
  file : String
  start : ℚ
  stop : ℚ
  filters : List (String × Bool)
  rejected : Option Bool
deriving DecidableEq

/-- Python `FilteredVideoSegment.__init__`: the cache starts with the repeat pair
`(is_repeat, not_is_repeat) = (False, True)` and `rejected = None`. -/
def initFVS (file : String) (start stop : ℚ) : FilteredVideoSegment :=
  ⟨file, start, stop, [("is_repeat", false), ("not_is_repeat", true)], none⟩

namespace FilteredVideoSegment

/-- Python `FilteredVideoSegment.overlaps_segment`. -/
def overlapsSegment (s t : FilteredVideoSegment) : Prop :=
  s.file = t.file ∧ rangesOverlap s.start s.stop t.start t.stop

instance (s t : FilteredVideoSegment) : Decidable (s.overlapsSegment t) := by
  unfold overlapsSegment; infer_instance

/-- Python `FilteredVideoSegment.reject`: sets `rejected` to `True` only while it is
still `None`. -/
def reject (s : FilteredVideoSegment) : FilteredVideoSegment :=
  if s.rejected = none then { s with rejected := some true } else s

/-- Python `FilteredVideoSegment.passes_filters`: walks the filter list in caller
order over the cached results only; a missing or `False` cache entry calls
`reject` and short-circuits; passing every filter sets `rejected = False`. -/
def passesFilters (s : FilteredVideoSegment) :
    List VFilter → Bool × FilteredVideoSegment
  | [] => (true, { s with rejected := some false })
  | f :: rest =>
    match dlookup f.name s.filters with
    | none => (false, s.reject)
    | some b => if b then s.passesFilters rest else (false, s.reject)

/-- The polarity partner of a filter name: `not_<name>` gains/drops the
`not_` prefix (`FilteredVideoSegment.filter`, lines 287-290).  Python's
`name.startswith("not_")` and `name[4:]` are modelled on the character
sequence of the string. -/
def partnerName (n : String) : String :=
  if n.data.take 4 = "not_".data then String.mk (n.data.drop 4) else "not_" ++ n

/-- One step of `FilteredVideoSegment.filter`: if the name is not cached,
invoke the filter function on the segment's coordinates and cache both
polarities (the evaluated name first, then its partner with the negated
result).  The second component logs the names whose function was invoked. -/
def applyVFilter (s : FilteredVideoSegment) (f : VFilter) :
    FilteredVideoSegment × List String :=
  match dlookup f.name s.filters with
  | some _ => (s, [])
  | none =>
    let result := f.fn s.file s.start s.stop
    ({ s with filters := dset (partnerName f.name) (!result) (dset f.name result s.filters) },
     [f.name])

/-- Python `FilteredVideoSegment.filter`: evaluate and cache every not-yet-cached
filter of the list, logging the invoked names. -/
def filterEval (s : FilteredVideoSegment) :
    List VFilter → FilteredVideoSegment × List String
  | [] => (s, [])
  | f :: rest =>
    let step := s.applyVFilter f
    let restStep := step.1.filterEval rest
    (restStep.1, step.2 ++ restStep.2)

/-- The repeat-pair overwrite performed by the cascade
(`FilteredVideoSource.sample_segment`, lines 171 and 175):
`filters.update(is_repeat = True, not_is_repeat = False)`. -/
def setRepeat (s : FilteredVideoSegment) : FilteredVideoSegment :=
  { s with filters := dset "not_is_repeat" false (dset "is_repeat" true s.filters) }

end FilteredVideoSegment

/-- A materialized sample (`FilteredVideoSegment.segment` reconstructs the
playable clip from just `(file, start, end)`). -/
def Seg : Type := String × ℚ × ℚ

instance : DecidableEq Seg := by unfold Seg; infer_instance

/-- Overlap of two materialized samples: same file and intersecting ranges. -/
def segOverlap (x y : Seg) : Prop :=
  x.1 = y.1 ∧ rangesOverlap x.2.1 x.2.2 y.2.1 y.2.2

instance (x y : Seg) : Decidable (segOverlap x y) := by
  unfold segOverlap; infer_instance

/-- Python `FilteredVideoSource` (VideoSource.py lines 119-206): one file, a weight
(the `Weightable` mixin is not under `src/`; modelled from the spec: each
source carries a relative weight, default 1), and duration-keyed segment
buckets. -/
structure FilteredVideoSource where
  file : String
  weight : ℚ
  segments : List (ℚ × List FilteredVideoSegment)
deriving DecidableEq

instance : Inhabited FilteredVideoSource := ⟨⟨"", 1, []⟩⟩

/-- The `while i < video_segment.duration - duration` loop of
`FilteredVideoSource.__init__` (lines 148-151), with the iteration count
supplied as fuel; `fileLength` is the value of `video_segment.duration`. -/
def tileLoop (file : String) (fileLength d : ℚ) :
    ℕ → ℚ → List FilteredVideoSegment
  | 0, _ => []
  | fuel + 1, i =>
    if i < fileLength - d then
      initFVS file i (i + d) :: tileLoop file fileLength d fuel (i + d)
    else
      []

/-- Fuel that dominates the iteration count of `tileLoop` for `0 < d`. -/
def bucketFuel (fileLength d : ℚ) : ℕ :=
  (⌈fileLength / d⌉).toNat + 1

/-- Python `FilteredVideoSource.__init__`: builds one bucket per configured duration
(later duplicates overwrite, with identical contents).  `fileLength` stands
for `VideoSegment(file).duration`. -/
def mkFilteredVideoSource (file : String) (fileLength : ℚ) (weight : ℚ)
    (durations : List ℚ) : FilteredVideoSource :=
  { file := file, weight := weight,
    segments := durations.foldl
      (fun acc d => dset d (tileLoop file fileLength d (bucketFuel fileLength d) 0) acc) [] }

namespace FilteredVideoSource

/-- Python `FilteredVideoSource.filter_segments`: eagerly evaluate the filters on
every segment of every bucket. -/
def filterSegments (src : FilteredVideoSource) (fs : List VFilter) :
    FilteredVideoSource :=
  { src with segments := src.segments.map (fun p => (p.1, p.2.map (fun s => (s.filterEval fs).1))) }

/-- Python `FilteredVideoSource.get_filtered_segments` (lines 160-168): for an
unconfigured duration, no candidates and no state change; otherwise run
`passes_filters` on every segment of the bucket (mutating each) and return
the segments that pass. -/
def getFilteredSegments (src : FilteredVideoSource) (duration : ℚ)
    (fs : List VFilter) : List FilteredVideoSegment × FilteredVideoSource :=
  match dlookup duration src.segments with
  | none => ([], src)
  | some bucket =>
    (bucket.filterMap (fun s =>
        if (s.passesFilters fs).1 then some (s.passesFilters fs).2 else none),
     { src with segments := src.segments.map (fun p =>
        if p.1 = duration then (p.1, p.2.map (fun s => (s.passesFilters fs).2)) else p) })

/-- The cascade update applied to one segment while sampling `chosen`
(`sample_segment`, lines 170-176): the chosen segment itself and every
segment overlapping it get the repeat pair forced to `(True, False)`. -/
def cascadeStep (chosen s : FilteredVideoSegment) : FilteredVideoSegment :=
  if s = chosen ∨ s.overlapsSegment chosen then s.setRepeat else s

/-- Python `FilteredVideoSource.sample_segment`: flip the repeat pair of the chosen
segment and of every overlapping segment across all duration buckets, and
return the materialized sample. -/
def sampleSegment (src : FilteredVideoSource) (chosen : FilteredVideoSegment) :
    Seg × FilteredVideoSource :=
  ((chosen.file, chosen.start, chosen.stop),
   { src with segments := src.segments.map (fun p => (p.1, p.2.map (cascadeStep chosen))) })

/-- Python `FilteredVideoSource.sample` (lines 178-198): candidates, then a choice
(numpy `choice`, modelled by the oracle `k` reduced modulo the number of
candidates; `choice` on an empty candidate list raises, modelled as `none`),
then the cascade. -/
def sample (src : FilteredVideoSource) (duration : ℚ) (fs : List VFilter)
    (k : ℕ) : Option Seg × FilteredVideoSource :=
  match (src.getFilteredSegments duration fs).1 with
  | [] => (none, (src.getFilteredSegments duration fs).2)
  | c :: cs =>
    (some (((c :: cs).getD (k % (c :: cs).length) c).file,
           ((c :: cs).getD (k % (c :: cs).length) c).start,
           ((c :: cs).getD (k % (c :: cs).length) c).stop),
     ((src.getFilteredSegments duration fs).2.sampleSegment
       ((c :: cs).getD (k % (c :: cs).length) c)).2)

end FilteredVideoSource

/-- The candidate list a source would report, without the state change. -/
def candsOf (duration : ℚ) (fs : List VFilter) (src : FilteredVideoSource) :
    List FilteredVideoSegment :=
  (src.getFilteredSegments duration fs).1

/-- The state of a source after `get_filtered_segments`. -/
def updateSrc (duration : ℚ) (fs : List VFilter) (src : FilteredVideoSource) :
    FilteredVideoSource :=
  (src.getFilteredSegments duration fs).2

/-- Python `FilteredVideoSourceList.get_filtered_sources` (lines 455-463), as the
indices of the sources that report at least one candidate.  Eligibility of
each source is judged on its own state before the call mutates it, exactly as
the sequential loop does (each source's evaluation touches only itself). -/
def eligibleIdxs (duration : ℚ) (fs : List VFilter)
    (state : List FilteredVideoSource) : List ℕ :=
  (List.range state.length).filter
    (fun i => !(candsOf duration fs (state.getD i default)).isEmpty)

/-- The weights of the eligible sources (line 486). -/
def sourceWeights (duration : ℚ) (fs : List VFilter)
    (state : List FilteredVideoSource) : List ℚ :=
  (eligibleIdxs duration fs state).map (fun i => (state.getD i default).weight)

/-- The probability vector handed to numpy `choice` (lines 487-488): each
eligible source's weight divided by the sum of the eligible weights. -/
def sampleProbs (duration : ℚ) (fs : List VFilter)
    (state : List FilteredVideoSource) : List ℚ :=
  (sourceWeights duration fs state).map
    (fun w => w / (sourceWeights duration fs state).sum)

/-- Python `FilteredVideoSourceList.sample` (lines 465-492): run
`get_filtered_segments` over every source (mutating them), raise
`SegmentNotFound` (here `none`) if no source is eligible, otherwise select an
eligible source (numpy `choice` with probabilities `sampleProbs`, modelled by
the oracle `j`) and delegate to its `sample` with segment oracle `k`. -/
def collectionSample (duration : ℚ) (fs : List VFilter) (j k : ℕ)
    (state : List FilteredVideoSource) :
    Option Seg × List FilteredVideoSource :=
  match eligibleIdxs duration fs state with
  | [] => (none, state.map (updateSrc duration fs))
  | i0 :: is =>
    ((((state.map (updateSrc duration fs)).getD
        ((i0 :: is).getD (j % (i0 :: is).length) i0) default).sample duration fs k).1,
     (state.map (updateSrc duration fs)).set
       ((i0 :: is).getD (j % (i0 :: is).length) i0)
       (((state.map (updateSrc duration fs)).getD
          ((i0 :: is).getD (j % (i0 :: is).length) i0) default).sample duration fs k).2)

/-- One collection-level `sample` call with its two choice oracles. -/
structure SampleCall where
  duration : ℚ
  filters : List VFilter
  srcChoice : ℕ
  segChoice : ℕ

/-- A sequence of collection-level `sample` calls, returning the final state
and the (chronological) list of results. -/
def runSamples : List SampleCall → List FilteredVideoSource →
    List FilteredVideoSource × List (Option Seg)
  | [], state => (state, [])
  | c :: rest, state =>
    ((runSamples rest
        (collectionSample c.duration c.filters c.srcChoice c.segChoice state).2).1,
     (collectionSample c.duration c.filters c.srcChoice c.segChoice state).1
       :: (runSamples rest
            (collectionSample c.duration c.filters c.srcChoice c.segChoice state).2).2)

/-! ## Concrete instances used by counterexamples and witnesses -/

/-- A filter named `has_text` whose detector would report text everywhere. -/
def fHasText : VFilter := ⟨"has_text", fun _ _ _ => true⟩

/-- A filter named `not_is_repeat` (the repeat pair is cache-resident from
construction, so its function is never consulted by the engine). -/
def fNotIsRepeat : VFilter := ⟨"not_is_repeat", fun _ _ _ => true⟩

/-- A filter named `not_has_text` whose detector reports text everywhere
(so the filter fails). -/
def fNotHasTextFail : VFilter := ⟨"not_has_text", fun _ _ _ => false⟩

/-- Source over file `f` of adjusted length `7/2` with the single configured
duration `2`: its only bucket holds the single segment `[0, 2)`. -/
def cexSrc : FilteredVideoSource := mkFilteredVideoSource "f" (7/2) 1 [2]

/-- The fresh segment of `cexSrc`. -/
def cexSeg : FilteredVideoSegment := initFVS "f" 0 2

/-- State of `cexSeg` after being rejected by a `has_text` query it has no cache entry
for. -/
def cexSegRejected : FilteredVideoSegment := { cexSeg with rejected := some true }

/-- State of `cexSrc` after that rejecting call. -/
def cexSrcRejected : FilteredVideoSource := ⟨"f", 1, [(2, [cexSegRejected])]⟩

/-- The concrete C7 source: one file of adjusted length `7/2`, duration `2`,
whose single segment has been eagerly evaluated against a failing
`not_has_text` filter. -/
def c7Src : FilteredVideoSource := cexSrc.filterSegments [fNotHasTextFail]

/-- The concrete C8 state: two eligible sources of weights 2 and 1, and an
ineligible source of weight 5 (no bucket for the duration). -/
def stateC8 : List FilteredVideoSource :=
  [⟨"a", 2, [(2, [initFVS "a" 0 2])]⟩,
   ⟨"b", 1, [(2, [initFVS "b" 0 2])]⟩,
   ⟨"c", 5, []⟩]

/-- The number of iterations `tileLoop` still performs when the running index
is `j * d`. -/
def mcount (L d : ℚ) (j : ℕ) : ℕ := (⌈L / d⌉ - 1 - j).toNat

/-- The relation between a segment and its image under the cascade for
`chosen`: coordinates and `rejected` are untouched; the chosen segment and
every overlapping one get exactly the repeat pair forced to
`(True, False)` with all other cache entries intact; everything else —
in particular any segment of a different file — is left fully unchanged. -/
def cascadeRel (chosen s s' : FilteredVideoSegment) : Prop :=
  s'.file = s.file ∧ s'.start = s.start ∧ s'.stop = s.stop ∧
  s'.rejected = s.rejected ∧
  (if s = chosen ∨ s.overlapsSegment chosen then
    dlookup "is_repeat" s'.filters = some true ∧
    dlookup "not_is_repeat" s'.filters = some false ∧
    (∀ n : String, n ≠ "is_repeat" → n ≠ "not_is_repeat" →
      dlookup n s'.filters = dlookup n s.filters)
  else s' = s) ∧
  (s.file ≠ chosen.file → s' = s)

/-- A filter name whose polarity-partner relation is involutive.  All the
registry's names (`has_text`, `not_has_text`, `is_repeat`, ...) are good;
only pathological `not_not_`-prefixed names are excluded. -/
def GoodName (n : String) : Prop :=
  FilteredVideoSegment.partnerName n ≠ n ∧
  FilteredVideoSegment.partnerName (FilteredVideoSegment.partnerName n) = n

instance (n : String) : Decidable (GoodName n) := by
  unfold GoodName; infer_instance

/-- The cache stores exact logical negations on every polarity pair. -/
def PairConsistent (s : FilteredVideoSegment) : Prop :=
  ∀ n : String, GoodName n →
    dlookup (FilteredVideoSegment.partnerName n) s.filters
      = (dlookup n s.filters).map (fun v => !v)

/-! Counting invocations of a polarity pair. -/

def pairCount (n : String) (log : List String) : ℕ :=
  (log.filter (fun m => m = n ∨ m = FilteredVideoSegment.partnerName n)).length

/-- The operations that touch one segment's cache and verdict over the
engine's lifetime: an eager evaluation pass (`filter_segments` calling
`FilteredVideoSegment.filter`), a candidates check (`passes_filters`), or
the repeat-pair overwrite of the cascade (`sample_segment`). -/
inductive FVSOp where
  | evalOp (fs : List VFilter)
  | passOp (fs : List VFilter)
  | cascadeOp

/-- The filter names an operation may evaluate (only `filter` evaluates). -/
def FVSOp.names : FVSOp → List String
  | evalOp fs => fs.map (fun f => f.name)
  | passOp _ => []
  | cascadeOp => []

/-- Run a sequence of operations on one segment, accumulating the log of
invoked filter names. -/
def runOps : List FVSOp → FilteredVideoSegment → FilteredVideoSegment × List String
  | [], s => (s, [])
  | op :: rest, s =>
    let step : FilteredVideoSegment × List String :=
      match op with
      | .evalOp fs => s.filterEval fs
      | .passOp fs => ((s.passesFilters fs).2, [])
      | .cascadeOp => (s.setRepeat, [])
    let stepRest := runOps rest step.1
    (stepRest.1, step.2 ++ stepRest.2)

/-- Concrete operation sequence for the C6 witness: evaluate `has_text`, then
its negation, then a cascade, then a candidates check. -/
def opsW : List FVSOp :=
  [FVSOp.evalOp [fHasText], FVSOp.evalOp [fNotHasTextFail],
   FVSOp.cascadeOp, FVSOp.passOp [fNotIsRepeat]]

/-- An element of the Python list handed to
`FilteredVideoSourceList._get_sources_from_list` (VideoSource.py lines
415-449).  String elements resolve through the file system and are outside
this model; the payloads of `VideoSourceList` and nested-list elements are
abstracted to opaque tags (their recursive elaboration is irrelevant to this
claim); a `FilteredVideoSourceList` element is represented by its observable
length (`SourceList` extends `list`), because `source.append(source)` makes
the object an element of itself, which has no finite tree representation. -/
inductive SrcItem where
  | vsItem (file : String)
  | vslItem (tag : ℕ)
  | fvslItem (len : ℕ)
  | listItem (tag : ℕ)
  | unknownItem
deriving DecidableEq

/-- The constructor call a branch of `_get_sources_from_list` appends for an
element. -/
inductive OutSrc where
  | outFVS (file : String)
  | outFVSLOfVSL (tag : ℕ)
  | outFVSLOfList (tag : ℕ)
deriving DecidableEq

/-- Python `FilteredVideoSourceList._get_sources_from_list`: the resulting source
list together with the post-call state of the input elements; `none` models
`ParameterError` (the constructor call fails, so no collection is built and
the model discards the post-state).  A `VideoSource` element becomes a
`FilteredVideoSource` on its file (line 439); `VideoSourceList` and plain
list elements become nested `FilteredVideoSourceList`s (lines 441, 445); the
`FilteredVideoSourceList` branch (lines 442-443) runs
`source.append(source)` — appending the element to itself instead of to the
result — so the result list is unchanged and the element's own length grows
by one. -/
def getSourcesFromList : List SrcItem → Option (List OutSrc × List SrcItem)
  | [] => some ([], [])
  | item :: rest =>
    match getSourcesFromList rest with
    | none => none
    | some (outs, posts) =>
      match item with
      | .vsItem f => some (OutSrc.outFVS f :: outs, SrcItem.vsItem f :: posts)
      | .vslItem t => some (OutSrc.outFVSLOfVSL t :: outs, SrcItem.vslItem t :: posts)
      | .fvslItem n => some (outs, SrcItem.fvslItem (n + 1) :: posts)
      | .listItem t => some (OutSrc.outFVSLOfList t :: outs, SrcItem.listItem t :: posts)
      | .unknownItem => none

/-- The output a single element contributes, if any. -/
def itemOut : SrcItem → Option OutSrc
  | .vsItem f => some (OutSrc.outFVS f)
  | .vslItem t => some (OutSrc.outFVSLOfVSL t)
  | .fvslItem _ => none
  | .listItem t => some (OutSrc.outFVSLOfList t)
  | .unknownItem => none

/-- The post-call state of a single element: only `FilteredVideoSourceList`
elements are mutated (self-appended, so one longer). -/
def bumpFVSL : SrcItem → SrcItem
  | .fvslItem n => .fvslItem (n + 1)
  | it => it

/-- Every segment of a source carries the source's file: true of every
constructed source, preserved by every operation. -/
def WFSrc (src : FilteredVideoSource) : Prop :=
  ∀ p ∈ src.segments, ∀ s ∈ p.2, s.file = src.file

instance (src : FilteredVideoSource) : Decidable (WFSrc src) := by
  unfold WFSrc; infer_instance

/-- Every segment of the source whose range intersects the already-returned
sample `r` has its cached `not_is_repeat` forced to `False`. -/
def MarkedSrc (src : FilteredVideoSource) (r : Seg) : Prop :=
  src.file = r.1 → ∀ p ∈ src.segments, ∀ s ∈ p.2,
    rangesOverlap s.start s.stop r.2.1 r.2.2 →
    dlookup "not_is_repeat" s.filters = some false

/-- The sampling invariant: every source is well-formed, the sources' files
are pairwise distinct, and every previously returned sample is marked in
every source of its file. -/
def StateInv (state : List FilteredVideoSource) (hist : List Seg) : Prop :=
  (∀ src ∈ state, WFSrc src) ∧
  (state.map (fun s => s.file)).Pairwise (fun a b => a ≠ b) ∧
  (∀ r ∈ hist, ∀ src ∈ state, MarkedSrc src r)

/-! ## Dictionary lemmas -/

theorem dlookup_cons {α β : Type} [DecidableEq α] (k a : α) (b : β) (t : List (α × β)) :
    dlookup k ((a, b) :: t) = if a = k then some b else dlookup k t := by
  by_cases h : a = k
  · simp [dlookup, List.find?, h]
  · simp [dlookup, List.find?, h]

theorem dlookup_append_single {α β : Type} [DecidableEq α] (k a : α) (b : β)
    (m : List (α × β)) (h : m.any (fun p => p.1 = a) = false) (hk : a = k) :
    dlookup k (m ++ [(a, b)]) = some b := by
  induction m with
  | nil => simp [dlookup, List.find?, hk]
  | cons c t ih =>
    obtain ⟨c1, c2⟩ := c
    simp only [List.any_cons, Bool.or_eq_false_iff, decide_eq_false_iff_not] at h
    rw [List.cons_append, dlookup_cons, if_neg (fun hc => h.1 (hc.trans hk.symm))]
    exact ih h.2

theorem dlookup_append_single_other {α β : Type} [DecidableEq α] (k a : α) (b : β)
    (m : List (α × β)) (hk : a ≠ k) :
    dlookup k (m ++ [(a, b)]) = dlookup k m := by
  induction m with
  | nil => simp [dlookup, List.find?, hk]
  | cons c t ih =>
    obtain ⟨c1, c2⟩ := c
    rw [List.cons_append, dlookup_cons, dlookup_cons]
    split <;> simp [ih]

theorem dlookup_overwrite_self {α β : Type} [DecidableEq α] (k k' : α) (v : β)
    (m : List (α × β)) (h : m.any (fun p => p.1 = k') = true) (hk : k' = k) :
    dlookup k (m.map (fun p => if p.1 = k' then (k', v) else p)) = some v := by
  induction m with
  | nil => simp at h
  | cons c t ih =>
    obtain ⟨c1, c2⟩ := c
    by_cases hc : c1 = k'
    · simp only [List.map_cons, if_pos (by simpa using hc)]
      rw [dlookup_cons, if_pos hk]
    · have ht : t.any (fun p => p.1 = k') = true := by
        simpa [List.any_cons, hc] using h
      simp only [List.map_cons, if_neg (by simpa using hc)]
      rw [dlookup_cons, if_neg (fun hck => hc (hck.trans hk.symm))]
      exact ih ht

theorem dlookup_overwrite_other {α β : Type} [DecidableEq α] (k k' : α) (v : β)
    (m : List (α × β)) (hk : k' ≠ k) :
    dlookup k (m.map (fun p => if p.1 = k' then (k', v) else p)) = dlookup k m := by
  induction m with
  | nil => rfl
  | cons c t ih =>
    obtain ⟨c1, c2⟩ := c
    by_cases hc : c1 = k'
    · simp only [List.map_cons, if_pos (by simpa using hc)]
      rw [dlookup_cons, if_neg hk, dlookup_cons, if_neg (fun h => hk (hc ▸ h))]
      exact ih
    · simp only [List.map_cons, if_neg (by simpa using hc)]
      rw [dlookup_cons, dlookup_cons]
      split <;> simp [ih]

theorem dlookup_dset_self {α β : Type} [DecidableEq α] (k : α) (v : β) (m : List (α × β)) :
    dlookup k (dset k v m) = some v := by
  unfold dset
  by_cases h : m.any (fun p => p.1 = k) = true
  · rw [if_pos h]; exact dlookup_overwrite_self k k v m h rfl
  · rw [if_neg h]
    exact dlookup_append_single k k v m (by rwa [Bool.not_eq_true] at h) rfl

theorem dlookup_dset_other {α β : Type} [DecidableEq α] {k k' : α} (h : k' ≠ k) (v : β)
    (m : List (α × β)) : dlookup k (dset k' v m) = dlookup k m := by
  unfold dset
  by_cases hm : m.any (fun p => p.1 = k') = true
  · rw [if_pos hm]; exact dlookup_overwrite_other k k' v m h
  · rw [if_neg hm]; exact dlookup_append_single_other k k' v m h

theorem isSome_dlookup_dset {α β : Type} [DecidableEq α] {k : α} {m : List (α × β)}
    (h : (dlookup k m).isSome) (k' : α) (v : β) :
    (dlookup k (dset k' v m)).isSome := by
  by_cases hk : k' = k
  · subst hk; rw [dlookup_dset_self]; rfl
  · rw [dlookup_dset_other hk]; exact h

/-! ## `passesFilters` lemmas -/

namespace FilteredVideoSegment

theorem reject_filters (s : FilteredVideoSegment) : s.reject.filters = s.filters := by
  unfold reject; split <;> rfl

theorem reject_file (s : FilteredVideoSegment) : s.reject.file = s.file := by
  unfold reject; split <;> rfl

theorem reject_start (s : FilteredVideoSegment) : s.reject.start = s.start := by
  unfold reject; split <;> rfl

theorem reject_stop (s : FilteredVideoSegment) : s.reject.stop = s.stop := by
  unfold reject; split <;> rfl

theorem reject_rejected (s : FilteredVideoSegment) :
    s.reject.rejected = if s.rejected = none then some true else s.rejected := by
  unfold reject; split <;> simp_all

theorem passesFilters_fst_iff (s : FilteredVideoSegment) (fs : List VFilter) :
    (s.passesFilters fs).1 = true ↔ ∀ f ∈ fs, dlookup f.name s.filters = some true := by
  induction fs with
  | nil => simp [passesFilters]
  | cons f rest ih =>
    cases h : dlookup f.name s.filters with
    | none => simp [passesFilters, h]
    | some b =>
      cases b with
      | false => simp [passesFilters, h]
      | true => simp [passesFilters, h, ih]

theorem passesFilters_snd (s : FilteredVideoSegment) (fs : List VFilter) :
    (s.passesFilters fs).2 =
      if (s.passesFilters fs).1 then { s with rejected := some false } else s.reject := by
  induction fs with
  | nil => simp [passesFilters]
  | cons f rest ih =>
    cases h : dlookup f.name s.filters with
    | none => simp [passesFilters, h]
    | some b =>
      cases b with
      | false => simp [passesFilters, h]
      | true => simpa [passesFilters, h] using ih

theorem passesFilters_snd_filters (s : FilteredVideoSegment) (fs : List VFilter) :
    (s.passesFilters fs).2.filters = s.filters := by
  rw [passesFilters_snd]; split <;> simp [reject_filters]

theorem passesFilters_snd_file (s : FilteredVideoSegment) (fs : List VFilter) :
    (s.passesFilters fs).2.file = s.file := by
  rw [passesFilters_snd]; split <;> simp [reject_file]

theorem passesFilters_snd_start (s : FilteredVideoSegment) (fs : List VFilter) :
    (s.passesFilters fs).2.start = s.start := by
  rw [passesFilters_snd]; split <;> simp [reject_start]

theorem passesFilters_snd_stop (s : FilteredVideoSegment) (fs : List VFilter) :
    (s.passesFilters fs).2.stop = s.stop := by
  rw [passesFilters_snd]; split <;> simp [reject_stop]

theorem passesFilters_snd_rejected (s : FilteredVideoSegment) (fs : List VFilter) :
    (s.passesFilters fs).2.rejected =
      if (s.passesFilters fs).1 then some false
      else if s.rejected = none then some true else s.rejected := by
  rw [passesFilters_snd]; split <;> simp [reject_rejected]

theorem passesFilters_fst_congr {s t : FilteredVideoSegment}
    (h : s.filters = t.filters) (fs : List VFilter) :
    (s.passesFilters fs).1 = (t.passesFilters fs).1 := by
  induction fs with
  | nil => simp [passesFilters]
  | cons f rest ih =>
    simp only [passesFilters, h]
    cases dlookup f.name t.filters with
    | none => rfl
    | some b => cases b <;> simp [ih]

theorem setRepeat_lookup (s : FilteredVideoSegment) (n : String) :
    dlookup n s.setRepeat.filters =
      if n = "not_is_repeat" then some false
      else if n = "is_repeat" then some true
      else dlookup n s.filters := by
  unfold setRepeat
  by_cases h1 : n = "not_is_repeat"
  · subst h1; simp [dlookup_dset_self]
  · rw [if_neg h1]
    simp only [dlookup_dset_other (fun h => h1 h.symm)]
    by_cases h2 : n = "is_repeat"
    · subst h2; simp [dlookup_dset_self]
    · rw [if_neg h2, dlookup_dset_other (fun h => h2 h.symm)]

theorem setRepeat_file (s : FilteredVideoSegment) : s.setRepeat.file = s.file := rfl

theorem setRepeat_start (s : FilteredVideoSegment) : s.setRepeat.start = s.start := rfl

theorem setRepeat_stop (s : FilteredVideoSegment) : s.setRepeat.stop = s.stop := rfl

theorem setRepeat_rejected (s : FilteredVideoSegment) :
    s.setRepeat.rejected = s.rejected := rfl

end FilteredVideoSegment

/-! ## `getFilteredSegments` lemmas -/

namespace FilteredVideoSource

theorem gfs_of_lookup_none {src : FilteredVideoSource} {d : ℚ} {fs : List VFilter}
    (h : dlookup d src.segments = none) :
    src.getFilteredSegments d fs = ([], src) := by
  unfold getFilteredSegments; rw [h]

theorem gfs_fst_of_lookup {src : FilteredVideoSource} {d : ℚ} {fs : List VFilter}
    {bucket : List FilteredVideoSegment} (h : dlookup d src.segments = some bucket) :
    (src.getFilteredSegments d fs).1 = bucket.filterMap (fun s =>
      if (s.passesFilters fs).1 then some (s.passesFilters fs).2 else none) := by
  unfold getFilteredSegments; rw [h]

theorem gfs_snd_segments_of_lookup {src : FilteredVideoSource} {d : ℚ}
    {fs : List VFilter} {bucket : List FilteredVideoSegment}
    (h : dlookup d src.segments = some bucket) :
    (src.getFilteredSegments d fs).2.segments = src.segments.map (fun p =>
      if p.1 = d then (p.1, p.2.map (fun s => (s.passesFilters fs).2)) else p) := by
  unfold getFilteredSegments; rw [h]

theorem gfs_snd_file (src : FilteredVideoSource) (d : ℚ) (fs : List VFilter) :
    (src.getFilteredSegments d fs).2.file = src.file := by
  unfold getFilteredSegments
  cases dlookup d src.segments <;> rfl

theorem gfs_snd_weight (src : FilteredVideoSource) (d : ℚ) (fs : List VFilter) :
    (src.getFilteredSegments d fs).2.weight = src.weight := by
  unfold getFilteredSegments
  cases dlookup d src.segments <;> rfl

/-- Every bucket of the post-`get_filtered_segments` state comes from a bucket
of the pre-state with the same key, each of its segments being either an
original segment or the `passes_filters` update of one. -/
theorem mem_gfs_snd_segments {src : FilteredVideoSource} {d : ℚ} {fs : List VFilter}
    {p' : ℚ × List FilteredVideoSegment}
    (h : p' ∈ (src.getFilteredSegments d fs).2.segments) :
    ∃ p ∈ src.segments, p'.1 = p.1 ∧
      ∀ s' ∈ p'.2, s' ∈ p.2 ∨ ∃ s ∈ p.2, s' = (s.passesFilters fs).2 := by
  unfold getFilteredSegments at h
  cases hb : dlookup d src.segments with
  | none =>
    rw [hb] at h
    exact ⟨p', h, rfl, fun s' hs' => Or.inl hs'⟩
  | some bucket =>
    rw [hb] at h
    simp only [List.mem_map] at h
    obtain ⟨p, hp, hpeq⟩ := h
    refine ⟨p, hp, ?_, ?_⟩
    · subst hpeq; split <;> rfl
    · subst hpeq
      split
      · intro s' hs'
        simp only [List.mem_map] at hs'
        obtain ⟨s, hs, hseq⟩ := hs'
        exact Or.inr ⟨s, hs, hseq.symm⟩
      · intro s' hs'
        exact Or.inl hs'

/-- Characterization of the candidates returned for a configured duration. -/
theorem mem_gfs_fst {src : FilteredVideoSource} {d : ℚ} {fs : List VFilter}
    {bucket : List FilteredVideoSegment} (h : dlookup d src.segments = some bucket)
    (c : FilteredVideoSegment) :
    c ∈ (src.getFilteredSegments d fs).1 ↔
      ∃ s ∈ bucket, (s.passesFilters fs).1 = true ∧ c = (s.passesFilters fs).2 := by
  rw [gfs_fst_of_lookup h]
  simp only [List.mem_filterMap]
  constructor
  · rintro ⟨s, hs, hc⟩
    by_cases hp : (s.passesFilters fs).1 = true
    · rw [if_pos hp] at hc
      exact ⟨s, hs, hp, (Option.some_inj.mp hc).symm⟩
    · rw [if_neg hp] at hc; cases hc
  · rintro ⟨s, hs, hp, hc⟩
    exact ⟨s, hs, by rw [if_pos hp, hc]⟩

end FilteredVideoSource

theorem cexSrc_eval :
    cexSrc = ⟨"f", 1, [(2, [cexSeg])]⟩ := by
  have h1 : bucketFuel (7/2 : ℚ) 2 = 3 := by
    unfold bucketFuel
    have h2 : ⌈(7:ℚ)/2 / 2⌉ = 2 := by
      rw [Int.ceil_eq_iff]; norm_num
    rw [h2]; rfl
  unfold cexSrc mkFilteredVideoSource
  simp only [List.foldl_cons, List.foldl_nil]
  rw [h1]
  norm_num [tileLoop, dset, cexSeg, initFVS]

/-! ## Claim C1: sticky rejection -/

/-- C1, counterexample.  The claim says that once `rejected` is `true` no
later `get_filtered_segments` call with any filter set returns the segment,
and that `passes_filters` never overwrites `rejected == true` with `false`.
On the code this fails: querying the fresh segment of `cexSrc` with
`has_text` (not cached) rejects it, yet a later query with `not_is_repeat`
(cached `True`) returns the very same segment and resets `rejected` to
`False`. -/
theorem c1_counterexample :
    (cexSrc.getFilteredSegments 2 [fHasText]).2 = cexSrcRejected ∧
    cexSegRejected.rejected = some true ∧
    (cexSrcRejected.getFilteredSegments 2 [fNotIsRepeat]).1
      = [{ cexSegRejected with rejected := some false }] ∧
    ((cexSrcRejected.getFilteredSegments 2 [fNotIsRepeat]).2.segments
      = [(2, [{ cexSegRejected with rejected := some false }])]) := by
  rw [cexSrc_eval]
  decide

/-- C1, amended.  `rejected` is not sticky: a segment whose `rejected` is
`true` is still re-examined by `get_filtered_segments`, and whenever every
filter of the set has a cached `True` value the segment is returned again
with `rejected` overwritten to `False`; `reject` itself only acts on the
"unknown" state. -/
theorem c1_rejected_not_sticky
    (src : FilteredVideoSource) (d : ℚ) (fs : List VFilter)
    (bucket : List FilteredVideoSegment) (s : FilteredVideoSegment)
    (hb : dlookup d src.segments = some bucket) (hs : s ∈ bucket)
    (hpass : ∀ f ∈ fs, dlookup f.name s.filters = some true) :
    { s with rejected := some false } ∈ (src.getFilteredSegments d fs).1 ∧
    (s.passesFilters fs).2.rejected = some false ∧
    (∀ t : FilteredVideoSegment, t.rejected ≠ none → t.reject = t) := by
  have hfst : (s.passesFilters fs).1 = true :=
    (FilteredVideoSegment.passesFilters_fst_iff s fs).mpr hpass
  have hsnd : (s.passesFilters fs).2 = { s with rejected := some false } := by
    rw [FilteredVideoSegment.passesFilters_snd, if_pos hfst]
  refine ⟨?_, by rw [hsnd], ?_⟩
  · rw [FilteredVideoSource.mem_gfs_fst hb]
    exact ⟨s, hs, hfst, hsnd.symm⟩
  · intro t ht
    unfold FilteredVideoSegment.reject
    rw [if_neg ht]

/-- C1 witness: the amended statement applied to the concrete rejected
segment of `cexSrcRejected`. -/
theorem c1_witness :
    { cexSegRejected with rejected := some false }
        ∈ (cexSrcRejected.getFilteredSegments 2 [fNotIsRepeat]).1 ∧
    (cexSegRejected.passesFilters [fNotIsRepeat]).2.rejected = some false ∧
    (∀ t : FilteredVideoSegment, t.rejected ≠ none → t.reject = t) :=
  c1_rejected_not_sticky cexSrcRejected 2 [fNotIsRepeat] [cexSegRejected]
    cexSegRejected (by decide) (by decide) (by decide)

/-! ## Claim C2: candidates evaluate predicates -/

/-- C2, counterexample.  The claim says a predicate of the set not yet
evaluated for a segment is evaluated during the `candidates` call rather than
causing rejection.  On the code, `passes_filters` consults only the cache:
the fresh segment of `cexSrc` has no `has_text` entry, so the call rejects it
and returns no candidate, even though the filter function itself (which
reports `true` here, and is never consulted) would have been a pass for the
`has_text` filter. -/
theorem c2_counterexample :
    (cexSrc.getFilteredSegments 2 [fHasText]).1 = [] ∧
    (cexSrc.getFilteredSegments 2 [fHasText]).2.segments
      = [(2, [cexSegRejected])] ∧
    fHasText.fn cexSeg.file cexSeg.start cexSeg.stop = true := by
  rw [cexSrc_eval]
  decide

/-- C2, amended.  For a configured duration, `candidates` runs
`passes_filters` over every segment of the bucket; that check uses cached
results only: it succeeds iff every filter of the set has a cached `True`
value (so a missing cache entry causes rejection instead of an evaluation,
and no filter function is invoked or cached during the call), and on failure
`rejected` is set to `true` only if it was still unknown. -/
theorem c2_candidates_use_cache_only
    (src : FilteredVideoSource) (d : ℚ) (fs : List VFilter)
    (bucket : List FilteredVideoSegment) (hb : dlookup d src.segments = some bucket) :
    (∀ c, c ∈ (src.getFilteredSegments d fs).1 ↔
      ∃ s ∈ bucket, (s.passesFilters fs).1 = true ∧ c = (s.passesFilters fs).2) ∧
    (∀ s : FilteredVideoSegment,
      ((s.passesFilters fs).1 = true ↔ ∀ f ∈ fs, dlookup f.name s.filters = some true) ∧
      (s.passesFilters fs).2.filters = s.filters ∧
      ((∃ f ∈ fs, dlookup f.name s.filters = none) → (s.passesFilters fs).1 = false) ∧
      (s.passesFilters fs).2.rejected =
        (if (s.passesFilters fs).1 then some false
         else if s.rejected = none then some true else s.rejected)) := by
  refine ⟨fun c => FilteredVideoSource.mem_gfs_fst hb c, fun s => ⟨?_, ?_, ?_, ?_⟩⟩
  · exact FilteredVideoSegment.passesFilters_fst_iff s fs
  · exact FilteredVideoSegment.passesFilters_snd_filters s fs
  · rintro ⟨f, hf, hnone⟩
    rw [← Bool.not_eq_true]
    intro htrue
    have := (FilteredVideoSegment.passesFilters_fst_iff s fs).mp htrue f hf
    rw [hnone] at this
    cases this
  · exact FilteredVideoSegment.passesFilters_snd_rejected s fs

/-- C2 witness: the amended statement at the concrete source `cexSrc`. -/
theorem c2_witness :
    (∀ c, c ∈ (cexSrc.getFilteredSegments 2 [fHasText]).1 ↔
      ∃ s ∈ [cexSeg], (s.passesFilters [fHasText]).1 = true ∧
        c = (s.passesFilters [fHasText]).2) ∧
    (∀ s : FilteredVideoSegment,
      ((s.passesFilters [fHasText]).1 = true ↔
        ∀ f ∈ [fHasText], dlookup f.name s.filters = some true) ∧
      (s.passesFilters [fHasText]).2.filters = s.filters ∧
      ((∃ f ∈ [fHasText], dlookup f.name s.filters = none) →
        (s.passesFilters [fHasText]).1 = false) ∧
      (s.passesFilters [fHasText]).2.rejected =
        (if (s.passesFilters [fHasText]).1 then some false
         else if s.rejected = none then some true else s.rejected)) :=
  c2_candidates_use_cache_only cexSrc 2 [fHasText] [cexSeg]
    (by rw [cexSrc_eval]; decide)

/-! ## Claim C9: the per-segment state machine -/

/-- C9, counterexample.  The claim says a `Passed` segment whose repeat pair
was flipped by a cascade transitions to `Rejected` (`rejected = true`) when a
later evaluation including `not_is_repeat` fails.  On the code, `reject` acts
only while `rejected` is `None`: the failing evaluation leaves the segment's
`rejected` at `False`. -/
theorem c9_counterexample :
    (({ cexSeg with rejected := some false }).setRepeat.passesFilters
        [fNotIsRepeat]).1 = false ∧
    (({ cexSeg with rejected := some false }).setRepeat.passesFilters
        [fNotIsRepeat]).2.rejected = some false := by
  decide

/-- C9, amended.  The `rejected` transition function of an evaluation is:
a passing evaluation always writes `False` (so `Rejected` is not terminal —
it moves back to `Passed` when every cached filter passes); a failing
evaluation writes `True` only from the unknown state (so `Passed`, not
`Rejected`, is the terminal verdict); the cascade never changes `rejected`. -/
theorem c9_rejected_transition (s : FilteredVideoSegment) (fs : List VFilter) :
    (s.passesFilters fs).2.rejected =
      (if (s.passesFilters fs).1 then some false
       else if s.rejected = none then some true else s.rejected) ∧
    s.setRepeat.rejected = s.rejected :=
  ⟨FilteredVideoSegment.passesFilters_snd_rejected s fs,
   FilteredVideoSegment.setRepeat_rejected s⟩

/-! ## Claim C3: bucket tiling -/

theorem tileLoop_eq (file : String) {L d : ℚ} (hd : 0 < d) :
    ∀ (fuel j : ℕ), mcount L d j ≤ fuel →
      tileLoop file L d fuel ((j : ℚ) * d) =
        (List.range' j (mcount L d j)).map
          (fun k : ℕ => initFVS file ((k : ℚ) * d) (((k : ℚ) + 1) * d)) := by
  intro fuel
  induction fuel with
  | zero =>
    intro j hj
    rw [Nat.le_zero.mp hj]
    rfl
  | succ fuel ih =>
    intro j hj
    by_cases hc : (j : ℚ) * d < L - d
    · have hcz : (j : ℤ) + 1 < ⌈L / d⌉ := by
        rw [Int.lt_ceil]
        push_cast
        rw [lt_div_iff₀ hd]
        linarith
      have hm : mcount L d j = mcount L d (j + 1) + 1 := by
        unfold mcount; omega
      simp only [tileLoop, if_pos hc]
      have hnext : (j : ℚ) * d + d = ((j + 1 : ℕ) : ℚ) * d := by push_cast; ring
      rw [hnext, ih (j + 1) (by omega), hm, List.range'_succ]
      simp only [List.map_cons]
      have hcast : ((j + 1 : ℕ) : ℚ) = (j : ℚ) + 1 := by push_cast; ring
      rw [hcast]
    · have hcz : ⌈L / d⌉ ≤ (j : ℤ) + 1 := by
        rw [Int.ceil_le]
        push_cast
        rw [div_le_iff₀ hd]
        nlinarith [not_lt.mp hc]
      have hm : mcount L d j = 0 := by unfold mcount; omega
      simp only [tileLoop, if_neg hc]
      rw [hm]
      rfl

theorem dlookup_foldl_dset {g : ℚ → List FilteredVideoSegment} :
    ∀ (durs : List ℚ) (init : List (ℚ × List FilteredVideoSegment)) (d : ℚ),
      (d ∈ durs ∨ dlookup d init = some (g d)) →
      dlookup d (durs.foldl (fun acc x => dset x (g x) acc) init) = some (g d) := by
  intro durs
  induction durs with
  | nil =>
    intro init d h
    rcases h with h | h
    · cases h
    · simpa using h
  | cons x t ih =>
    intro init d h
    rw [List.foldl_cons]
    by_cases hxd : x = d
    · subst hxd
      exact ih _ x (Or.inr (dlookup_dset_self x (g x) init))
    · rcases h with h | h
      · rcases List.mem_cons.mp h with h1 | h1
        · exact absurd h1.symm hxd
        · exact ih _ d (Or.inl h1)
      · exact ih _ d (Or.inr (by rw [dlookup_dset_other hxd]; exact h))

/-- The bucket the constructor stores for a configured duration. -/
theorem dlookup_mkFVS {file : String} {L w : ℚ} {durs : List ℚ} {d : ℚ}
    (hmem : d ∈ durs) :
    dlookup d (mkFilteredVideoSource file L w durs).segments =
      some (tileLoop file L d (bucketFuel L d) 0) := by
  unfold mkFilteredVideoSource
  exact dlookup_foldl_dset durs [] d (Or.inl hmem)

/-- C3, counterexample.  The claim says the bucket for duration `d` of a file
of length `L` holds `floor(L / d)` segments; for `L = 10`, `d = 2` the loop
`while i < L - d` produces only 4 segments, not `floor(10 / 2) = 5`. -/
theorem c3_counterexample :
    (dlookup 2 (mkFilteredVideoSource "f" 10 1 [2]).segments).map List.length
      = some 4 ∧ (4 : ℕ) ≠ (⌊(10 : ℚ) / 2⌋).toNat := by
  refine ⟨?_, by norm_num; decide⟩
  · have h1 : bucketFuel (10 : ℚ) 2 = 6 := by
      unfold bucketFuel
      norm_num
      decide
    unfold mkFilteredVideoSource
    simp only [List.foldl_cons, List.foldl_nil]
    rw [h1]
    norm_num [tileLoop, dset, dlookup, List.find?, initFVS]

/-- C3, amended.  For `0 < d` configured, the bucket holds exactly
`(⌈L / d⌉ - 1).toNat` segments — one fewer than `floor(L / d)` whenever `d`
divides `L`, equal to it otherwise — where segment `k` spans
`[k * d, (k + 1) * d)`, and every segment's end is strictly below `L`. -/
theorem c3_bucket_tiling (file : String) (L w : ℚ) (durs : List ℚ) (d : ℚ)
    (hmem : d ∈ durs) (hd : 0 < d) :
    dlookup d (mkFilteredVideoSource file L w durs).segments =
      some ((List.range ((⌈L / d⌉ - 1).toNat)).map
        (fun k : ℕ => initFVS file ((k : ℚ) * d) (((k : ℚ) + 1) * d))) ∧
    (∀ s ∈ (List.range ((⌈L / d⌉ - 1).toNat)).map
        (fun k : ℕ => initFVS file ((k : ℚ) * d) (((k : ℚ) + 1) * d)),
      s.stop < L ∧ s.stop = s.start + d) := by
  constructor
  · rw [dlookup_mkFVS hmem]
    have h0 : (0 : ℚ) = ((0 : ℕ) : ℚ) * d := by push_cast; ring
    rw [h0, tileLoop_eq file hd (bucketFuel L d) 0 (by unfold mcount bucketFuel; omega)]
    have hm0 : mcount L d 0 = (⌈L / d⌉ - 1).toNat := by unfold mcount; omega
    rw [hm0, List.range_eq_range']
  · intro s hs
    simp only [List.mem_map, List.mem_range] at hs
    obtain ⟨k, hk, hks⟩ := hs
    subst hks
    have hkz : (k : ℤ) < ⌈L / d⌉ - 1 := by omega
    have hq : ((k : ℚ) + 1) < L / d := by
      have h2 : ((k : ℤ) + 1) < ⌈L / d⌉ := by omega
      have h3 := Int.lt_ceil.mp h2
      push_cast at h3
      exact h3
    refine ⟨?_, by simp [initFVS]; ring⟩
    simp only [initFVS]
    calc ((k : ℚ) + 1) * d < (L / d) * d := by
          exact mul_lt_mul_of_pos_right hq hd
      _ = L := div_mul_cancel₀ L (ne_of_gt hd)

/-- C3 witness: the amended statement at `L = 7/2`, `d = 2`. -/
theorem c3_witness :
    dlookup 2 (mkFilteredVideoSource "g" (7/2) 1 [2]).segments =
      some ((List.range ((⌈(7/2 : ℚ) / 2⌉ - 1).toNat)).map
        (fun k : ℕ => initFVS "g" ((k : ℚ) * 2) (((k : ℚ) + 1) * 2))) ∧
    (∀ s ∈ (List.range ((⌈(7/2 : ℚ) / 2⌉ - 1).toNat)).map
        (fun k : ℕ => initFVS "g" ((k : ℚ) * 2) (((k : ℚ) + 1) * 2)),
      s.stop < 7/2 ∧ s.stop = s.start + 2) :=
  c3_bucket_tiling "g" (7/2) 1 [2] 2 (by decide) (by norm_num)

/-! ## Claim C5: cascade scope -/

theorem cascadeStep_rel (chosen s : FilteredVideoSegment) :
    cascadeRel chosen s (FilteredVideoSource.cascadeStep chosen s) := by
  unfold FilteredVideoSource.cascadeStep cascadeRel
  by_cases h : s = chosen ∨ s.overlapsSegment chosen
  · rw [if_pos h, if_pos h]
    refine ⟨FilteredVideoSegment.setRepeat_file s, FilteredVideoSegment.setRepeat_start s,
      FilteredVideoSegment.setRepeat_stop s, FilteredVideoSegment.setRepeat_rejected s,
      ⟨?_, ?_, ?_⟩, ?_⟩
    · rw [FilteredVideoSegment.setRepeat_lookup, if_neg (by decide), if_pos rfl]
    · rw [FilteredVideoSegment.setRepeat_lookup, if_pos rfl]
    · intro n h1 h2
      rw [FilteredVideoSegment.setRepeat_lookup, if_neg h2, if_neg h1]
    · intro hne
      rcases h with h | h
      · exact absurd (by rw [h]) hne
      · exact absurd h.1 hne
  · rw [if_neg h, if_neg h]
    exact ⟨rfl, rfl, rfl, rfl, rfl, fun _ => rfl⟩

theorem forall₂_map_self {α : Type} {R : α → α → Prop} {f : α → α}
    (h : ∀ a, R a (f a)) (l : List α) : List.Forall₂ R l (l.map f) := by
  induction l with
  | nil => exact List.Forall₂.nil
  | cons a t ih => exact List.Forall₂.cons (h a) ih

/-- C5: sampling a chosen segment materializes `(file, start, end)`, keeps the
source's file and weight, and rewrites every bucket pointwise by the cascade
relation: the chosen segment and every segment whose time range overlaps it
(across all duration buckets) get `is_repeat = true`, `not_is_repeat = false`
with every other cache entry preserved; every other segment — in particular
every segment of a different file — is left unchanged; and no segment's
`rejected` field is written. -/
theorem c5_cascade_scope (src : FilteredVideoSource) (chosen : FilteredVideoSegment) :
    (src.sampleSegment chosen).1 = (chosen.file, chosen.start, chosen.stop) ∧
    (src.sampleSegment chosen).2.file = src.file ∧
    (src.sampleSegment chosen).2.weight = src.weight ∧
    List.Forall₂ (fun p q => q.1 = p.1 ∧ List.Forall₂ (cascadeRel chosen) p.2 q.2)
      src.segments (src.sampleSegment chosen).2.segments := by
  refine ⟨rfl, rfl, rfl, ?_⟩
  exact forall₂_map_self
    (fun p => ⟨rfl, forall₂_map_self (cascadeStep_rel chosen) p.2⟩) src.segments

/-! ## Claim C6: predicate memoization -/

theorem goodName_partner {n : String} (h : GoodName n) :
    GoodName (FilteredVideoSegment.partnerName n) :=
  ⟨by rw [h.2]; exact fun he => h.1 he.symm, by rw [h.2]⟩

theorem isSome_partner {s : FilteredVideoSegment} (hs : PairConsistent s)
    {n : String} (hn : GoodName n) :
    (dlookup (FilteredVideoSegment.partnerName n) s.filters).isSome
      = (dlookup n s.filters).isSome := by
  rw [hs n hn]
  cases dlookup n s.filters <;> rfl

theorem partner_ne_special {n : String} (hn : GoodName n)
    (h1 : n ≠ "is_repeat") (h2 : n ≠ "not_is_repeat") :
    FilteredVideoSegment.partnerName n ≠ "is_repeat" ∧
    FilteredVideoSegment.partnerName n ≠ "not_is_repeat" := by
  constructor
  · intro he
    apply h2
    have h3 := hn.2
    rw [he] at h3
    have h4 : FilteredVideoSegment.partnerName "is_repeat" = "not_is_repeat" := by decide
    rw [h4] at h3
    exact h3.symm
  · intro he
    apply h1
    have h3 := hn.2
    rw [he] at h3
    have h4 : FilteredVideoSegment.partnerName "not_is_repeat" = "is_repeat" := by decide
    rw [h4] at h3
    exact h3.symm

theorem pairConsistent_init (file : String) (a b : ℚ) :
    PairConsistent (initFVS file a b) := by
  intro n hn
  by_cases h1 : n = "is_repeat"
  · subst h1
    show dlookup (FilteredVideoSegment.partnerName "is_repeat")
        [("is_repeat", false), ("not_is_repeat", true)]
      = (dlookup "is_repeat"
          [("is_repeat", false), ("not_is_repeat", true)]).map (fun v => !v)
    decide
  · by_cases h2 : n = "not_is_repeat"
    · subst h2
      show dlookup (FilteredVideoSegment.partnerName "not_is_repeat")
          [("is_repeat", false), ("not_is_repeat", true)]
        = (dlookup "not_is_repeat"
            [("is_repeat", false), ("not_is_repeat", true)]).map (fun v => !v)
      decide
    · obtain ⟨hp1, hp2⟩ := partner_ne_special hn h1 h2
      show dlookup _ [("is_repeat", false), ("not_is_repeat", true)]
        = (dlookup _ [("is_repeat", false), ("not_is_repeat", true)]).map (fun v => !v)
      rw [dlookup_cons, if_neg (fun h => hp1 h.symm),
        dlookup_cons, if_neg (fun h => hp2 h.symm),
        dlookup_cons, if_neg (fun h => h1 h.symm),
        dlookup_cons, if_neg (fun h => h2 h.symm)]
      rfl

theorem pairConsistent_of_filters_eq {s t : FilteredVideoSegment}
    (h : t.filters = s.filters) (hs : PairConsistent s) : PairConsistent t := by
  intro n hn
  rw [h]
  exact hs n hn

theorem pairConsistent_setRepeat {s : FilteredVideoSegment}
    (hs : PairConsistent s) : PairConsistent s.setRepeat := by
  intro n hn
  by_cases h1 : n = "is_repeat"
  · subst h1
    rw [show FilteredVideoSegment.partnerName "is_repeat" = "not_is_repeat" from by decide,
      FilteredVideoSegment.setRepeat_lookup, FilteredVideoSegment.setRepeat_lookup]
    simp
  · by_cases h2 : n = "not_is_repeat"
    · subst h2
      rw [show FilteredVideoSegment.partnerName "not_is_repeat" = "is_repeat" from by decide,
        FilteredVideoSegment.setRepeat_lookup, FilteredVideoSegment.setRepeat_lookup]
      simp
    · obtain ⟨hp1, hp2⟩ := partner_ne_special hn h1 h2
      rw [FilteredVideoSegment.setRepeat_lookup, if_neg hp2, if_neg hp1,
        FilteredVideoSegment.setRepeat_lookup, if_neg h2, if_neg h1]
      exact hs n hn

/-! Equations for `applyVFilter`. -/

theorem applyVFilter_cached {s : FilteredVideoSegment} {f : VFilter} {b : Bool}
    (hl : dlookup f.name s.filters = some b) : s.applyVFilter f = (s, []) := by
  unfold FilteredVideoSegment.applyVFilter
  rw [hl]

theorem applyVFilter_uncached_filters {s : FilteredVideoSegment} {f : VFilter}
    (hl : dlookup f.name s.filters = none) :
    (s.applyVFilter f).1.filters =
      dset (FilteredVideoSegment.partnerName f.name)
        (!(f.fn s.file s.start s.stop))
        (dset f.name (f.fn s.file s.start s.stop) s.filters) := by
  unfold FilteredVideoSegment.applyVFilter
  rw [hl]

theorem applyVFilter_uncached_log {s : FilteredVideoSegment} {f : VFilter}
    (hl : dlookup f.name s.filters = none) :
    (s.applyVFilter f).2 = [f.name] := by
  unfold FilteredVideoSegment.applyVFilter
  rw [hl]

theorem pairConsistent_applyVFilter {s : FilteredVideoSegment}
    (hs : PairConsistent s) {f : VFilter} (hf : GoodName f.name) :
    PairConsistent (s.applyVFilter f).1 := by
  cases hl : dlookup f.name s.filters with
  | some b => rw [applyVFilter_cached hl]; exact hs
  | none =>
    intro n hn
    rw [applyVFilter_uncached_filters hl]
    by_cases h1 : n = f.name
    · subst h1
      rw [dlookup_dset_self, dlookup_dset_other hf.1, dlookup_dset_self]
      rfl
    · by_cases h2 : n = FilteredVideoSegment.partnerName f.name
      · subst h2
        rw [hf.2, dlookup_dset_other hf.1, dlookup_dset_self, dlookup_dset_self]
        cases f.fn s.file s.start s.stop <;> rfl
      · have hpn1 : FilteredVideoSegment.partnerName n ≠ f.name := by
          intro he
          apply h2
          rw [← hn.2, he]
        have hpn2 : FilteredVideoSegment.partnerName n
            ≠ FilteredVideoSegment.partnerName f.name := by
          intro he
          apply h1
          rw [← hn.2, he, hf.2]
        rw [dlookup_dset_other (fun h => hpn2 h.symm),
          dlookup_dset_other (fun h => hpn1 h.symm),
          dlookup_dset_other (fun h => h2 h.symm),
          dlookup_dset_other (fun h => h1 h.symm)]
        exact hs n hn

theorem applyVFilter_isSome_mono {s : FilteredVideoSegment} {n : String}
    (h : (dlookup n s.filters).isSome) (f : VFilter) :
    (dlookup n (s.applyVFilter f).1.filters).isSome := by
  cases hl : dlookup f.name s.filters with
  | some b => rw [applyVFilter_cached hl]; exact h
  | none =>
    rw [applyVFilter_uncached_filters hl]
    exact isSome_dlookup_dset (isSome_dlookup_dset h _ _) _ _

theorem pairCount_nil (n : String) : pairCount n [] = 0 := rfl

theorem pairCount_append (n : String) (l1 l2 : List String) :
    pairCount n (l1 ++ l2) = pairCount n l1 + pairCount n l2 := by
  simp [pairCount, List.filter_append]

theorem pairCount_single (n m : String) :
    pairCount n [m] =
      if m = n ∨ m = FilteredVideoSegment.partnerName n then 1 else 0 := by
  by_cases h : m = n ∨ m = FilteredVideoSegment.partnerName n
  · rw [if_pos h]
    unfold pairCount
    rw [List.filter_singleton]
    simp only [decide_eq_true h]
    rfl
  · rw [if_neg h]
    unfold pairCount
    rw [List.filter_singleton]
    simp only [decide_eq_false h]
    rfl

/-- The full per-call specification of `FilteredVideoSegment.filter`:
cache consistency is preserved, cache entries are never deleted, and each
polarity pair's underlying function is invoked at most once — never when the
pair is already cached, and an invocation leaves the pair cached. -/
theorem filterEval_spec (fs : List VFilter) :
    ∀ s : FilteredVideoSegment, PairConsistent s →
      (∀ f ∈ fs, GoodName f.name) →
      PairConsistent (s.filterEval fs).1 ∧
      (∀ n, (dlookup n s.filters).isSome →
        (dlookup n (s.filterEval fs).1.filters).isSome) ∧
      (∀ n, GoodName n →
        ((dlookup n s.filters).isSome → pairCount n (s.filterEval fs).2 = 0) ∧
        pairCount n (s.filterEval fs).2 ≤ 1 ∧
        (pairCount n (s.filterEval fs).2 = 1 →
          (dlookup n (s.filterEval fs).1.filters).isSome)) := by
  induction fs with
  | nil =>
    intro s hs _
    refine ⟨hs, fun n h => h, fun n hn => ⟨fun _ => rfl, ?_, ?_⟩⟩
    · exact Nat.zero_le 1
    · intro h
      exact absurd (show (0 : ℕ) = 1 from h) (by decide)
  | cons f rest ih =>
    intro s hs hgood
    have hfg : GoodName f.name := hgood f (List.mem_cons_self f rest)
    have hrest : ∀ g ∈ rest, GoodName g.name :=
      fun g hg => hgood g (List.mem_cons_of_mem f hg)
    have h1 : (s.filterEval (f :: rest)).1
        = ((s.applyVFilter f).1.filterEval rest).1 := rfl
    have h2 : (s.filterEval (f :: rest)).2
        = (s.applyVFilter f).2 ++ ((s.applyVFilter f).1.filterEval rest).2 := rfl
    cases hl : dlookup f.name s.filters with
    | some b =>
      have hst : s.applyVFilter f = (s, []) := applyVFilter_cached hl
      obtain ⟨ih1, ih2, ih3⟩ := ih s hs hrest
      refine ⟨?_, ?_, ?_⟩
      · rw [h1, hst]
        exact ih1
      · intro n h
        rw [h1, hst]
        exact ih2 n h
      · intro n hn
        obtain ⟨c0, c1, c2⟩ := ih3 n hn
        rw [h1, h2, hst]
        exact ⟨c0, c1, c2⟩
    | none =>
      have hcons' : PairConsistent (s.applyVFilter f).1 :=
        pairConsistent_applyVFilter hs hfg
      obtain ⟨ih1, ih2, ih3⟩ := ih (s.applyVFilter f).1 hcons' hrest
      have hmono : ∀ n, (dlookup n s.filters).isSome →
          (dlookup n (s.applyVFilter f).1.filters).isSome :=
        fun n h => applyVFilter_isSome_mono h f
      have h2' : (s.filterEval (f :: rest)).2
          = [f.name] ++ ((s.applyVFilter f).1.filterEval rest).2 := by
        rw [h2, applyVFilter_uncached_log hl]
      refine ⟨by rw [h1]; exact ih1, fun n h => by rw [h1]; exact ih2 n (hmono n h), ?_⟩
      intro n hn
      obtain ⟨c0, c1, c2⟩ := ih3 n hn
      rw [h1, h2', pairCount_append, pairCount_single]
      by_cases hmem : f.name = n ∨ f.name = FilteredVideoSegment.partnerName n
      · have hcached' : (dlookup n (s.applyVFilter f).1.filters).isSome := by
          rw [applyVFilter_uncached_filters hl]
          rcases hmem with he | he
          · rw [he]
            apply isSome_dlookup_dset
            rw [dlookup_dset_self]
            rfl
          · have hP : FilteredVideoSegment.partnerName f.name = n := by
              rw [he, hn.2]
            rw [hP, dlookup_dset_self]
            rfl
        rw [if_pos hmem, c0 hcached']
        refine ⟨?_, by omega, fun _ => ih2 n hcached'⟩
        intro hcache
        exfalso
        rcases hmem with he | he
        · rw [← he, hl] at hcache
          simp at hcache
        · have hps : (dlookup (FilteredVideoSegment.partnerName n) s.filters).isSome := by
            rw [isSome_partner hs hn]
            exact hcache
          rw [← he, hl] at hps
          simp at hps
      · rw [if_neg hmem]
        refine ⟨fun hcache => ?_, ?_, fun h => c2 ?_⟩
        · rw [Nat.zero_add]
          exact c0 (hmono n hcache)
        · rw [Nat.zero_add]
          omega
        · rwa [Nat.zero_add] at h

theorem runOps_spec (ops : List FVSOp) :
    ∀ s : FilteredVideoSegment, PairConsistent s →
      (∀ op ∈ ops, ∀ n ∈ FVSOp.names op, GoodName n) →
      PairConsistent (runOps ops s).1 ∧
      (∀ n, (dlookup n s.filters).isSome →
        (dlookup n (runOps ops s).1.filters).isSome) ∧
      (∀ n, GoodName n →
        ((dlookup n s.filters).isSome → pairCount n (runOps ops s).2 = 0) ∧
        pairCount n (runOps ops s).2 ≤ 1 ∧
        (pairCount n (runOps ops s).2 = 1 →
          (dlookup n (runOps ops s).1.filters).isSome)) := by
  induction ops with
  | nil =>
    intro s hs _
    refine ⟨hs, fun n h => h, fun n hn => ⟨fun _ => rfl, Nat.zero_le 1, ?_⟩⟩
    intro h
    exact absurd (show (0 : ℕ) = 1 from h) (by decide)
  | cons op rest ih =>
    intro s hs hgood
    have hrest : ∀ o ∈ rest, ∀ n ∈ FVSOp.names o, GoodName n :=
      fun o ho => hgood o (List.mem_cons_of_mem op ho)
    cases op with
    | evalOp fs =>
      have hgoodf : ∀ f ∈ fs, GoodName f.name := by
        intro f hf
        exact hgood (FVSOp.evalOp fs) (List.mem_cons_self _ _) f.name
          (List.mem_map_of_mem _ hf)
      obtain ⟨e1, e2, e3⟩ := filterEval_spec fs s hs hgoodf
      obtain ⟨i1, i2, i3⟩ := ih (s.filterEval fs).1 e1 hrest
      refine ⟨i1, fun n h => i2 n (e2 n h), fun n hn => ?_⟩
      obtain ⟨a0, a1, a2⟩ := e3 n hn
      obtain ⟨c0, c1, c2⟩ := i3 n hn
      have htot : pairCount n (runOps (FVSOp.evalOp fs :: rest) s).2
          = pairCount n (s.filterEval fs).2
            + pairCount n (runOps rest (s.filterEval fs).1).2 := by
        show pairCount n ((s.filterEval fs).2
          ++ (runOps rest (s.filterEval fs).1).2) = _
        exact pairCount_append n _ _
      refine ⟨?_, ?_, ?_⟩
      · intro h
        rw [htot, a0 h, c0 (e2 n h)]
      · rw [htot]
        by_cases hx : pairCount n (s.filterEval fs).2 = 1
        · rw [hx, c0 (a2 hx)]
        · have h0 : pairCount n (s.filterEval fs).2 = 0 := by omega
          rw [h0, Nat.zero_add]
          exact c1
      · intro h
        rw [htot] at h
        by_cases hx : pairCount n (s.filterEval fs).2 = 1
        · exact i2 n (a2 hx)
        · have h0 : pairCount n (s.filterEval fs).2 = 0 := by omega
          rw [h0, Nat.zero_add] at h
          exact c2 h
    | passOp fs =>
      have ht : PairConsistent (s.passesFilters fs).2 :=
        pairConsistent_of_filters_eq (FilteredVideoSegment.passesFilters_snd_filters s fs) hs
      have hmono : ∀ n, (dlookup n s.filters).isSome →
          (dlookup n (s.passesFilters fs).2.filters).isSome := by
        intro n h
        rw [FilteredVideoSegment.passesFilters_snd_filters]
        exact h
      obtain ⟨i1, i2, i3⟩ := ih (s.passesFilters fs).2 ht hrest
      refine ⟨i1, fun n h => i2 n (hmono n h), fun n hn => ?_⟩
      obtain ⟨c0, c1, c2⟩ := i3 n hn
      exact ⟨fun h => c0 (hmono n h), c1, c2⟩
    | cascadeOp =>
      have ht : PairConsistent s.setRepeat := pairConsistent_setRepeat hs
      have hmono : ∀ n, (dlookup n s.filters).isSome →
          (dlookup n s.setRepeat.filters).isSome :=
        fun n h => isSome_dlookup_dset (isSome_dlookup_dset h _ _) _ _
      obtain ⟨i1, i2, i3⟩ := ih s.setRepeat ht hrest
      refine ⟨i1, fun n h => i2 n (hmono n h), fun n hn => ?_⟩
      obtain ⟨c0, c1, c2⟩ := i3 n hn
      exact ⟨fun h => c0 (hmono n h), c1, c2⟩

/-- C6: starting from a fresh segment (whose repeat pair is initialized to
`(false, true)`), over any sequence of evaluation passes, candidates checks
and cascades whose filter names are well-formed, each polarity pair's filter
function is invoked at most once ever, and the cached results of `P` and
`not_P` remain exact logical negations of each other. -/
theorem c6_predicate_memoization (ops : List FVSOp) (file : String) (a b : ℚ)
    (hgood : ∀ op ∈ ops, ∀ n ∈ FVSOp.names op, GoodName n) :
    (∀ n, GoodName n → pairCount n (runOps ops (initFVS file a b)).2 ≤ 1) ∧
    (∀ n, GoodName n →
      dlookup (FilteredVideoSegment.partnerName n)
          (runOps ops (initFVS file a b)).1.filters
        = (dlookup n (runOps ops (initFVS file a b)).1.filters).map
            (fun v => !v)) ∧
    dlookup "is_repeat" (initFVS file a b).filters = some false ∧
    dlookup "not_is_repeat" (initFVS file a b).filters = some true := by
  obtain ⟨r1, _, r3⟩ :=
    runOps_spec ops (initFVS file a b) (pairConsistent_init file a b) hgood
  exact ⟨fun n hn => (r3 n hn).2.1, r1, rfl, rfl⟩

/-- C6 witness: the memoization statement at a concrete operation
sequence and the pair of the `has_text` filter. -/
theorem c6_witness :
    pairCount "has_text" (runOps opsW (initFVS "f" 0 2)).2 ≤ 1 ∧
    dlookup (FilteredVideoSegment.partnerName "has_text")
        (runOps opsW (initFVS "f" 0 2)).1.filters
      = (dlookup "has_text" (runOps opsW (initFVS "f" 0 2)).1.filters).map
          (fun v => !v) ∧
    dlookup "is_repeat" (initFVS "f" 0 2).filters = some false :=
  ⟨(c6_predicate_memoization opsW "f" 0 2 (by decide)).1 "has_text" (by decide),
   (c6_predicate_memoization opsW "f" 0 2 (by decide)).2.1 "has_text" (by decide),
   (c6_predicate_memoization opsW "f" 0 2 (by decide)).2.2.1⟩

/-! ## Claim C10: `FilteredVideoSourceList._get_sources_from_list` -/

/-- C10: in every successful construction from a Python list, a
`FilteredVideoSourceList` element contributes nothing to the resulting
collection — the branch appends the element to itself, so the output is
exactly the contributions of the other elements in order, and each
`FilteredVideoSourceList` element of the input ends up mutated (one element
longer), all other elements unchanged. -/
theorem c10_fvsl_element_omitted (items : List SrcItem) (outs : List OutSrc)
    (posts : List SrcItem) (h : getSourcesFromList items = some (outs, posts)) :
    outs = items.filterMap itemOut ∧
    posts = items.map bumpFVSL ∧
    (∀ n : ℕ, itemOut (SrcItem.fvslItem n) = none ∧
      bumpFVSL (SrcItem.fvslItem n) = SrcItem.fvslItem (n + 1)) := by
  induction items generalizing outs posts with
  | nil =>
    refine ⟨?_, ?_, fun n => ⟨rfl, rfl⟩⟩ <;>
      · injection h with h'
        injection h' with ha hb
        simp_all
  | cons item rest ih =>
    unfold getSourcesFromList at h
    cases hr : getSourcesFromList rest with
    | none => rw [hr] at h; cases h
    | some pr =>
      rw [hr] at h
      obtain ⟨outs0, posts0⟩ := pr
      obtain ⟨ih1, ih2, _⟩ := ih outs0 posts0 hr
      cases item with
      | vsItem f =>
        injection h with h'
        injection h' with ha hb
        subst ha; subst hb
        exact ⟨by simp [List.filterMap_cons, itemOut, ih1],
          by simp [bumpFVSL, ih2], fun n => ⟨rfl, rfl⟩⟩
      | vslItem t =>
        injection h with h'
        injection h' with ha hb
        subst ha; subst hb
        exact ⟨by simp [List.filterMap_cons, itemOut, ih1],
          by simp [bumpFVSL, ih2], fun n => ⟨rfl, rfl⟩⟩
      | fvslItem n =>
        injection h with h'
        injection h' with ha hb
        subst ha; subst hb
        exact ⟨by simp [List.filterMap_cons, itemOut, ih1],
          by simp [bumpFVSL, ih2], fun n => ⟨rfl, rfl⟩⟩
      | listItem t =>
        injection h with h'
        injection h' with ha hb
        subst ha; subst hb
        exact ⟨by simp [List.filterMap_cons, itemOut, ih1],
          by simp [bumpFVSL, ih2], fun n => ⟨rfl, rfl⟩⟩
      | unknownItem => cases h

/-- C10 witness: a concrete input holding a `FilteredVideoSourceList` of
length 3 between two other elements. -/
theorem c10_witness :
    [OutSrc.outFVS "a", OutSrc.outFVSLOfList 7]
      = [SrcItem.vsItem "a", SrcItem.fvslItem 3,
          SrcItem.listItem 7].filterMap itemOut ∧
    [SrcItem.vsItem "a", SrcItem.fvslItem 4, SrcItem.listItem 7]
      = [SrcItem.vsItem "a", SrcItem.fvslItem 3,
          SrcItem.listItem 7].map bumpFVSL ∧
    (∀ n : ℕ, itemOut (SrcItem.fvslItem n) = none ∧
      bumpFVSL (SrcItem.fvslItem n) = SrcItem.fvslItem (n + 1)) :=
  c10_fvsl_element_omitted
    [SrcItem.vsItem "a", SrcItem.fvslItem 3, SrcItem.listItem 7]
    [OutSrc.outFVS "a", OutSrc.outFVSLOfList 7]
    [SrcItem.vsItem "a", SrcItem.fvslItem 4, SrcItem.listItem 7]
    (by decide)

/-! ## Claims C7 and C8: collection-level sampling -/

theorem dlookup_update_eq (d : ℚ)
    (g : List FilteredVideoSegment → List FilteredVideoSegment)
    (m : List (ℚ × List FilteredVideoSegment)) :
    dlookup d (m.map (fun p => if p.1 = d then (p.1, g p.2) else p))
      = (dlookup d m).map g := by
  induction m with
  | nil => rfl
  | cons p t ih =>
    obtain ⟨k, v⟩ := p
    by_cases hk : k = d
    · subst hk
      simp only [List.map_cons, if_true]
      rw [dlookup_cons, dlookup_cons, if_pos rfl, if_pos rfl]
      rfl
    · simp only [List.map_cons, if_neg hk]
      rw [dlookup_cons, dlookup_cons, if_neg hk, if_neg hk]
      exact ih

theorem updateSrc_of_lookup_none {src : FilteredVideoSource} {d : ℚ}
    {fs : List VFilter} (hb : dlookup d src.segments = none) :
    updateSrc d fs src = src := by
  unfold updateSrc
  rw [FilteredVideoSource.gfs_of_lookup_none hb]

theorem updateSrc_lookup_some {src : FilteredVideoSource} {d : ℚ}
    {fs : List VFilter} {bucket : List FilteredVideoSegment}
    (hb : dlookup d src.segments = some bucket) :
    dlookup d (updateSrc d fs src).segments
      = some (bucket.map (fun s => (s.passesFilters fs).2)) := by
  unfold updateSrc
  rw [FilteredVideoSource.gfs_snd_segments_of_lookup hb, dlookup_update_eq, hb]
  rfl

/-- The candidates verdict of a segment is unchanged by `passes_filters`
itself — the check reads only the cache, which it never writes. -/
theorem verdict_idem (fs : List VFilter) (s : FilteredVideoSegment) :
    ((s.passesFilters fs).2.passesFilters fs).1 = (s.passesFilters fs).1 :=
  FilteredVideoSegment.passesFilters_fst_congr
    (FilteredVideoSegment.passesFilters_snd_filters s fs) fs

/-- Re-running `get_filtered_segments` on the just-updated source reports
candidates exactly when the first run did. -/
theorem candsOf_update_nil_iff (d : ℚ) (fs : List VFilter)
    (src : FilteredVideoSource) :
    (candsOf d fs (updateSrc d fs src) = []) ↔ (candsOf d fs src = []) := by
  cases hb : dlookup d src.segments with
  | none => rw [updateSrc_of_lookup_none hb]
  | some bucket =>
    unfold candsOf
    rw [FilteredVideoSource.gfs_fst_of_lookup (updateSrc_lookup_some hb),
      FilteredVideoSource.gfs_fst_of_lookup hb,
      List.filterMap_eq_nil_iff, List.filterMap_eq_nil_iff]
    constructor
    · intro h s hs
      have h2 := h ((s.passesFilters fs).2) (List.mem_map_of_mem _ hs)
      by_cases hv : (s.passesFilters fs).1 = true
      · rw [if_pos ((verdict_idem fs s).trans hv)] at h2
        cases h2
      · rw [if_neg hv]
    · intro h s' hs'
      obtain ⟨s, hs, rfl⟩ := List.mem_map.mp hs'
      have h2 := h s hs
      by_cases hv : (s.passesFilters fs).1 = true
      · rw [if_pos hv] at h2
        cases h2
      · rw [if_neg (fun hc => hv ((verdict_idem fs s).symm.trans hc))]

theorem sample_of_cands_nil {src : FilteredVideoSource} {d : ℚ}
    {fs : List VFilter} (k : ℕ) (hc : candsOf d fs src = []) :
    src.sample d fs k = (none, updateSrc d fs src) := by
  unfold FilteredVideoSource.sample
  rw [show (src.getFilteredSegments d fs).1 = [] from hc]
  rfl

theorem sample_of_cands_cons {src : FilteredVideoSource} {d : ℚ}
    {fs : List VFilter} (k : ℕ) {c : FilteredVideoSegment}
    {cs : List FilteredVideoSegment} (hc : candsOf d fs src = c :: cs) :
    src.sample d fs k =
      (some (((c :: cs).getD (k % (c :: cs).length) c).file,
             ((c :: cs).getD (k % (c :: cs).length) c).start,
             ((c :: cs).getD (k % (c :: cs).length) c).stop),
       ((updateSrc d fs src).sampleSegment
         ((c :: cs).getD (k % (c :: cs).length) c)).2) := by
  unfold FilteredVideoSource.sample
  rw [show (src.getFilteredSegments d fs).1 = c :: cs from hc]
  rfl

theorem mem_eligibleIdxs_iff {d : ℚ} {fs : List VFilter}
    {state : List FilteredVideoSource} {i : ℕ} :
    i ∈ eligibleIdxs d fs state ↔
      i < state.length ∧ candsOf d fs (state.getD i default) ≠ [] := by
  unfold eligibleIdxs
  rw [List.mem_filter, List.mem_range]
  simp [List.isEmpty_iff]

theorem collectionSample_nil_eq {d : ℚ} {fs : List VFilter} {j k : ℕ}
    {state : List FilteredVideoSource} (he : eligibleIdxs d fs state = []) :
    collectionSample d fs j k state = (none, state.map (updateSrc d fs)) := by
  unfold collectionSample
  rw [he]

theorem collectionSample_cons_eq {d : ℚ} {fs : List VFilter} {j k : ℕ}
    {state : List FilteredVideoSource} {i0 : ℕ} {is : List ℕ}
    (he : eligibleIdxs d fs state = i0 :: is) :
    collectionSample d fs j k state =
      ((((state.map (updateSrc d fs)).getD
            ((i0 :: is).getD (j % (i0 :: is).length) i0) default).sample d fs k).1,
       (state.map (updateSrc d fs)).set
         ((i0 :: is).getD (j % (i0 :: is).length) i0)
         (((state.map (updateSrc d fs)).getD
            ((i0 :: is).getD (j % (i0 :: is).length) i0) default).sample d fs k).2) := by
  unfold collectionSample
  rw [he]

/-- The selected index is an eligible index, and the post-update source at an
eligible index keeps a nonempty candidate list. -/
theorem collectionSample_selected_mem {d : ℚ} {fs : List VFilter} {j : ℕ}
    {state : List FilteredVideoSource} {i0 : ℕ} {is : List ℕ}
    (he : eligibleIdxs d fs state = i0 :: is) :
    (i0 :: is).getD (j % (i0 :: is).length) i0 ∈ eligibleIdxs d fs state := by
  have hmod : j % (i0 :: is).length < (i0 :: is).length :=
    Nat.mod_lt _ (by simp)
  rw [he, List.getD_eq_getElem _ _ hmod]
  exact List.getElem_mem hmod

theorem collectionSample_none_iff (d : ℚ) (fs : List VFilter) (j k : ℕ)
    (state : List FilteredVideoSource) :
    (collectionSample d fs j k state).1 = none ↔
      eligibleIdxs d fs state = [] := by
  cases he : eligibleIdxs d fs state with
  | nil =>
    rw [collectionSample_nil_eq he]
    simp
  | cons i0 is =>
    rw [collectionSample_cons_eq he]
    constructor
    · intro h
      exfalso
      have hi_mem := collectionSample_selected_mem (j := j) he
      obtain ⟨hilt, hcands⟩ := mem_eligibleIdxs_iff.mp hi_mem
      have hmap : (state.map (updateSrc d fs)).getD
          ((i0 :: is).getD (j % (i0 :: is).length) i0) default
          = updateSrc d fs
              (state.getD ((i0 :: is).getD (j % (i0 :: is).length) i0) default) := by
        rw [List.getD_eq_getElem _ _ (by simpa using hilt), List.getElem_map,
          List.getD_eq_getElem _ _ hilt]
      have hc2 : candsOf d fs ((state.map (updateSrc d fs)).getD
          ((i0 :: is).getD (j % (i0 :: is).length) i0) default) ≠ [] := by
        rw [hmap]
        intro hnil
        exact hcands ((candsOf_update_nil_iff d fs _).mp hnil)
      cases hc : candsOf d fs ((state.map (updateSrc d fs)).getD
          ((i0 :: is).getD (j % (i0 :: is).length) i0) default) with
      | nil => exact hc2 hc
      | cons c cs =>
        rw [sample_of_cands_cons k hc] at h
        cases h
    · intro h
      cases h

theorem c7Src_eval :
    c7Src = ⟨"f", 1, [(2, [⟨"f", 0, 2,
      [("is_repeat", false), ("not_is_repeat", true), ("not_has_text", false),
       ("has_text", true)], none⟩])]⟩ := by
  unfold c7Src
  rw [cexSrc_eval]
  decide

/-- C7: collection-level `sample` raises `SegmentNotFound` (modelled as
`none`) exactly when no source reports at least one passing candidate for the
requested duration and filter set; and in the concrete single-source,
single-segment scenario whose segment fails the configured `not_has_text`
filter, `sample` fails and leaves that segment's `rejected` set to `true`. -/
theorem c7_exhaustion :
    (∀ (d : ℚ) (fs : List VFilter) (j k : ℕ)
        (state : List FilteredVideoSource),
      ((collectionSample d fs j k state).1 = none ↔
        eligibleIdxs d fs state = [])) ∧
    (collectionSample 2 [fNotHasTextFail] 0 0 [c7Src]).1 = none ∧
    (collectionSample 2 [fNotHasTextFail] 0 0 [c7Src]).2
      = [⟨"f", 1, [(2, [⟨"f", 0, 2,
          [("is_repeat", false), ("not_is_repeat", true), ("not_has_text", false),
           ("has_text", true)], some true⟩])]⟩] := by
  refine ⟨collectionSample_none_iff, ?_, ?_⟩ <;>
    · rw [c7Src_eval]
      decide

/-- C8: the eligible sources of a sampling call are exactly those with at
least one passing candidate for the duration and filter set, and the
probability vector handed to numpy `choice` assigns the source at each
eligible position its weight divided by the sum of the weights of the
eligible sources only — ineligible sources contribute nothing to the
denominator. -/
theorem c8_weight_normalization (d : ℚ) (fs : List VFilter)
    (state : List FilteredVideoSource) :
    (∀ i : ℕ, i ∈ eligibleIdxs d fs state ↔
      i < state.length ∧ candsOf d fs (state.getD i default) ≠ []) ∧
    (sampleProbs d fs state).length = (eligibleIdxs d fs state).length ∧
    (∀ pos : ℕ, pos < (eligibleIdxs d fs state).length →
      (sampleProbs d fs state).getD pos 0
        = (state.getD ((eligibleIdxs d fs state).getD pos 0) default).weight
          / ((eligibleIdxs d fs state).map
              (fun i => (state.getD i default).weight)).sum) := by
  refine ⟨fun i => mem_eligibleIdxs_iff, ?_, ?_⟩
  · simp [sampleProbs, sourceWeights]
  · intro pos hpos
    unfold sampleProbs sourceWeights
    rw [List.getD_eq_getElem _ _ (by simpa using hpos), List.getElem_map,
      List.getElem_map, List.getD_eq_getElem _ _ hpos]

/-- C8 witness: at the concrete three-source state the probability of the
first eligible source is its weight over the eligible weights only. -/
theorem c8_witness :
    (2 ∈ eligibleIdxs 2 [fNotIsRepeat] stateC8 ↔
      2 < stateC8.length ∧ candsOf 2 [fNotIsRepeat] (stateC8.getD 2 default) ≠ []) ∧
    (sampleProbs 2 [fNotIsRepeat] stateC8).getD 0 0
      = (stateC8.getD ((eligibleIdxs 2 [fNotIsRepeat] stateC8).getD 0 0) default).weight
        / ((eligibleIdxs 2 [fNotIsRepeat] stateC8).map
            (fun i => (stateC8.getD i default).weight)).sum :=
  ⟨(c8_weight_normalization 2 [fNotIsRepeat] stateC8).1 2,
   (c8_weight_normalization 2 [fNotIsRepeat] stateC8).2.2 0 (by decide)⟩

/-! ## Claim C4: no-repeat leak across sample calls -/

theorem rangesOverlap_symm {a b c d : ℚ} (h : rangesOverlap a b c d) :
    rangesOverlap c d a b := ⟨h.2, h.1⟩

theorem segOverlap_symm {x y : Seg} (h : segOverlap x y) : segOverlap y x :=
  ⟨h.1.symm, rangesOverlap_symm h.2⟩

theorem dlookup_mem {α β : Type} [DecidableEq α] {k : α} {m : List (α × β)}
    {v : β} (h : dlookup k m = some v) : (k, v) ∈ m := by
  unfold dlookup at h
  cases hf : m.find? (fun p => p.1 = k) with
  | none => rw [hf] at h; cases h
  | some pr =>
    rw [hf] at h
    injection h with h2
    have hp := List.find?_some hf
    have hm := List.mem_of_find?_eq_some hf
    have hk : pr.1 = k := of_decide_eq_true hp
    have hpr : pr = (k, v) := by
      obtain ⟨a, b⟩ := pr
      simp_all
    rwa [hpr] at hm

theorem mem_cands_spec {src : FilteredVideoSource} {d : ℚ} {fs : List VFilter}
    {c : FilteredVideoSegment} (hc : c ∈ candsOf d fs src) :
    ∃ bucket, dlookup d src.segments = some bucket ∧ ∃ s ∈ bucket,
      (s.passesFilters fs).1 = true ∧ c = (s.passesFilters fs).2 := by
  cases hb : dlookup d src.segments with
  | none =>
    exfalso
    unfold candsOf at hc
    rw [FilteredVideoSource.gfs_of_lookup_none hb] at hc
    exact absurd hc (List.not_mem_nil c)
  | some bucket =>
    exact ⟨bucket, rfl, (FilteredVideoSource.mem_gfs_fst hb c).mp hc⟩

/-- A returned candidate has its `not_is_repeat` cached `True` whenever a
filter of that name is in the set. -/
theorem chosen_lookup_true {src : FilteredVideoSource} {d : ℚ}
    {fs : List VFilter} {c : FilteredVideoSegment} (hc : c ∈ candsOf d fs src)
    (hnr : ∃ f ∈ fs, f.name = "not_is_repeat") :
    dlookup "not_is_repeat" c.filters = some true := by
  obtain ⟨bucket, hb, s, hs, hv, rfl⟩ := mem_cands_spec hc
  obtain ⟨f, hf, hfn⟩ := hnr
  have ht := (FilteredVideoSegment.passesFilters_fst_iff s fs).mp hv f hf
  rw [hfn] at ht
  rw [FilteredVideoSegment.passesFilters_snd_filters]
  exact ht

theorem chosen_file {src : FilteredVideoSource} {d : ℚ} {fs : List VFilter}
    {c : FilteredVideoSegment} (hwf : WFSrc src) (hc : c ∈ candsOf d fs src) :
    c.file = src.file := by
  obtain ⟨bucket, hb, s, hs, hv, rfl⟩ := mem_cands_spec hc
  rw [FilteredVideoSegment.passesFilters_snd_file]
  exact hwf (d, bucket) (dlookup_mem hb) s hs

theorem updateSrc_file (d : ℚ) (fs : List VFilter) (src : FilteredVideoSource) :
    (updateSrc d fs src).file = src.file :=
  FilteredVideoSource.gfs_snd_file src d fs

/-- Trace a segment of a post-`get_filtered_segments` state back to a
pre-state segment with the same coordinates and cache. -/
theorem updateSrc_trace {src : FilteredVideoSource} {d : ℚ} {fs : List VFilter}
    {p' : ℚ × List FilteredVideoSegment}
    (hp' : p' ∈ (updateSrc d fs src).segments) :
    ∃ p ∈ src.segments, ∀ s' ∈ p'.2, ∃ s ∈ p.2,
      s'.file = s.file ∧ s'.start = s.start ∧ s'.stop = s.stop ∧
      s'.filters = s.filters := by
  obtain ⟨p, hp, _, hseg⟩ := FilteredVideoSource.mem_gfs_snd_segments hp'
  refine ⟨p, hp, fun s' hs' => ?_⟩
  rcases hseg s' hs' with h | ⟨s, hs, rfl⟩
  · exact ⟨s', h, rfl, rfl, rfl, rfl⟩
  · exact ⟨s, hs, FilteredVideoSegment.passesFilters_snd_file s fs,
      FilteredVideoSegment.passesFilters_snd_start s fs,
      FilteredVideoSegment.passesFilters_snd_stop s fs,
      FilteredVideoSegment.passesFilters_snd_filters s fs⟩

theorem wfSrc_updateSrc {src : FilteredVideoSource} (h : WFSrc src)
    (d : ℚ) (fs : List VFilter) : WFSrc (updateSrc d fs src) := by
  intro p' hp' s' hs'
  rw [updateSrc_file]
  obtain ⟨p, hp, htr⟩ := updateSrc_trace hp'
  obtain ⟨s, hs, hf, _, _, _⟩ := htr s' hs'
  rw [hf]
  exact h p hp s hs

theorem markedSrc_updateSrc {src : FilteredVideoSource} {r : Seg}
    (h : MarkedSrc src r) (d : ℚ) (fs : List VFilter) :
    MarkedSrc (updateSrc d fs src) r := by
  intro hfile p' hp' s' hs' hov
  have hfile' : src.file = r.1 := by
    rw [← updateSrc_file d fs src]
    exact hfile
  obtain ⟨p, hp, htr⟩ := updateSrc_trace hp'
  obtain ⟨s, hs, _, hst, hsp, hfl⟩ := htr s' hs'
  rw [hfl]
  apply h hfile' p hp s hs
  rw [← hst, ← hsp]
  exact hov

theorem cascadeStep_file (chosen s : FilteredVideoSegment) :
    (FilteredVideoSource.cascadeStep chosen s).file = s.file := by
  unfold FilteredVideoSource.cascadeStep
  split
  · exact FilteredVideoSegment.setRepeat_file s
  · rfl

theorem cascadeStep_start (chosen s : FilteredVideoSegment) :
    (FilteredVideoSource.cascadeStep chosen s).start = s.start := by
  unfold FilteredVideoSource.cascadeStep
  split
  · exact FilteredVideoSegment.setRepeat_start s
  · rfl

theorem cascadeStep_stop (chosen s : FilteredVideoSegment) :
    (FilteredVideoSource.cascadeStep chosen s).stop = s.stop := by
  unfold FilteredVideoSource.cascadeStep
  split
  · exact FilteredVideoSegment.setRepeat_stop s
  · rfl

theorem cascadeStep_false {s : FilteredVideoSegment}
    (chosen : FilteredVideoSegment)
    (h : dlookup "not_is_repeat" s.filters = some false) :
    dlookup "not_is_repeat" (FilteredVideoSource.cascadeStep chosen s).filters
      = some false := by
  unfold FilteredVideoSource.cascadeStep
  split
  · rw [FilteredVideoSegment.setRepeat_lookup, if_pos rfl]
  · exact h

theorem wfSrc_cascade {src : FilteredVideoSource} (h : WFSrc src)
    (chosen : FilteredVideoSegment) : WFSrc (src.sampleSegment chosen).2 := by
  intro p' hp' s' hs'
  rw [show (src.sampleSegment chosen).2.segments
    = src.segments.map (fun p => (p.1, p.2.map
        (FilteredVideoSource.cascadeStep chosen))) from rfl] at hp'
  obtain ⟨p, hp, rfl⟩ := List.mem_map.mp hp'
  obtain ⟨s, hs, rfl⟩ := List.mem_map.mp hs'
  rw [cascadeStep_file]
  exact h p hp s hs

theorem markedSrc_cascade {src : FilteredVideoSource} {r : Seg}
    (h : MarkedSrc src r) (chosen : FilteredVideoSegment) :
    MarkedSrc (src.sampleSegment chosen).2 r := by
  intro hfile p' hp' s' hs' hov
  rw [show (src.sampleSegment chosen).2.segments
    = src.segments.map (fun p => (p.1, p.2.map
        (FilteredVideoSource.cascadeStep chosen))) from rfl] at hp'
  obtain ⟨p, hp, rfl⟩ := List.mem_map.mp hp'
  obtain ⟨s, hs, rfl⟩ := List.mem_map.mp hs'
  apply cascadeStep_false
  apply h hfile p hp s hs
  rw [← cascadeStep_start chosen s, ← cascadeStep_stop chosen s]
  exact hov

/-- The cascade marks its own sample: afterwards every segment of the source
overlapping the chosen range has `not_is_repeat = False`. -/
theorem markedSrc_cascade_self {src : FilteredVideoSource}
    {chosen : FilteredVideoSegment} (hwf : WFSrc src)
    (hfile : chosen.file = src.file) :
    MarkedSrc (src.sampleSegment chosen).2
      (chosen.file, chosen.start, chosen.stop) := by
  intro _ p' hp' s' hs' hov
  rw [show (src.sampleSegment chosen).2.segments
    = src.segments.map (fun p => (p.1, p.2.map
        (FilteredVideoSource.cascadeStep chosen))) from rfl] at hp'
  obtain ⟨p, hp, rfl⟩ := List.mem_map.mp hp'
  obtain ⟨s, hs, rfl⟩ := List.mem_map.mp hs'
  have hov' : rangesOverlap s.start s.stop chosen.start chosen.stop := by
    rw [← cascadeStep_start chosen s, ← cascadeStep_stop chosen s]
    exact hov
  have hcond : s = chosen ∨ s.overlapsSegment chosen :=
    Or.inr ⟨(hwf p hp s hs).trans hfile.symm, hov'⟩
  unfold FilteredVideoSource.cascadeStep
  rw [if_pos hcond, FilteredVideoSegment.setRepeat_lookup, if_pos rfl]

theorem list_set_self {α : Type} (l : List α) (i : ℕ) (hi : i < l.length) :
    l.set i l[i] = l := by
  induction l generalizing i with
  | nil => cases hi
  | cons a t ih =>
    cases i with
    | zero => rfl
    | succ n =>
      show a :: t.set n (a :: t)[n + 1] = a :: t
      exact congrArg (a :: ·) (ih n (by simpa using hi))

theorem state1_files (d : ℚ) (fs : List VFilter)
    (state : List FilteredVideoSource) :
    (state.map (updateSrc d fs)).map (fun s => s.file)
      = state.map (fun s => s.file) := by
  rw [List.map_map]
  exact List.map_eq_map_iff.mpr (fun a _ => updateSrc_file d fs a)

/-- One collection-level sample step from a state satisfying the invariant,
in the eligible case: the invariant extends to the returned sample, and the
returned sample overlaps nothing in the history. -/
theorem collectionSample_step_cons (d : ℚ) (fs : List VFilter) (k : ℕ)
    (state : List FilteredVideoSource) (hist : List Seg)
    (hinv : StateInv state hist)
    (hnr : ∃ f ∈ fs, f.name = "not_is_repeat")
    (i : ℕ) (hi_mem : i ∈ eligibleIdxs d fs state) :
    StateInv
      ((state.map (updateSrc d fs)).set i
        (((state.map (updateSrc d fs)).getD i default).sample d fs k).2)
      (hist ++ ((((state.map (updateSrc d fs)).getD i default).sample d fs k).1).toList) ∧
    (∀ x, (((state.map (updateSrc d fs)).getD i default).sample d fs k).1 = some x →
      ∀ h ∈ hist, ¬ segOverlap h x) := by
  obtain ⟨hwfAll, hdist, hmarked⟩ := hinv
  obtain ⟨hilt, hcands0⟩ := mem_eligibleIdxs_iff.mp hi_mem
  have hmap : (state.map (updateSrc d fs)).getD i default
      = updateSrc d fs (state.getD i default) := by
    rw [List.getD_eq_getElem _ _ (by simpa using hilt), List.getElem_map,
      List.getD_eq_getElem _ _ hilt]
  have hsrc0_mem : state.getD i default ∈ state := by
    rw [List.getD_eq_getElem _ _ hilt]
    exact List.getElem_mem hilt
  have hwf0 : WFSrc (state.getD i default) := hwfAll _ hsrc0_mem
  have hwf1 : WFSrc (updateSrc d fs (state.getD i default)) :=
    wfSrc_updateSrc hwf0 d fs
  have hcands1 : candsOf d fs (updateSrc d fs (state.getD i default)) ≠ [] := by
    intro hnil
    exact hcands0 ((candsOf_update_nil_iff d fs _).mp hnil)
  cases hc : candsOf d fs (updateSrc d fs (state.getD i default)) with
  | nil => exact absurd hc hcands1
  | cons c cs =>
    rw [hmap, sample_of_cands_cons k hc]
    set chosen := (c :: cs).getD (k % (c :: cs).length) c with hchdef
    have hchosen_mem : chosen ∈ candsOf d fs (updateSrc d fs (state.getD i default)) := by
      rw [hc, hchdef]
      have hmod : k % (c :: cs).length < (c :: cs).length := Nat.mod_lt _ (by simp)
      rw [List.getD_eq_getElem _ _ hmod]
      exact List.getElem_mem hmod
    have htrue : dlookup "not_is_repeat" chosen.filters = some true :=
      chosen_lookup_true hchosen_mem hnr
    have hcfile0 : chosen.file = (state.getD i default).file := by
      rw [chosen_file hwf1 hchosen_mem, updateSrc_file]
    have hwf2 : WFSrc (updateSrc d fs (updateSrc d fs (state.getD i default))) :=
      wfSrc_updateSrc hwf1 d fs
    -- the chosen candidate traces back to a pre-call segment of the source,
    -- with identical coordinates and cache
    obtain ⟨bucket1, hb1, s1, hs1, hv1, hcs1⟩ := mem_cands_spec hchosen_mem
    obtain ⟨p0, hp0, htr⟩ := updateSrc_trace (dlookup_mem hb1)
    obtain ⟨s0, hs0, hf0, hst0, hsp0, hfl0⟩ := htr s1 hs1
    have hch_file : chosen.file = s0.file := by
      rw [hcs1, FilteredVideoSegment.passesFilters_snd_file, hf0]
    have hch_start : chosen.start = s0.start := by
      rw [hcs1, FilteredVideoSegment.passesFilters_snd_start, hst0]
    have hch_stop : chosen.stop = s0.stop := by
      rw [hcs1, FilteredVideoSegment.passesFilters_snd_stop, hsp0]
    have hch_filters : chosen.filters = s0.filters := by
      rw [hcs1, FilteredVideoSegment.passesFilters_snd_filters, hfl0]
    constructor
    · -- the invariant is preserved and extended to the new sample
      refine ⟨?_, ?_, ?_⟩
      · intro s'' hmem''
        rcases List.mem_or_eq_of_mem_set hmem'' with hin | rfl
        · obtain ⟨src, hsrc, rfl⟩ := List.mem_map.mp hin
          exact wfSrc_updateSrc (hwfAll src hsrc) d fs
        · exact wfSrc_cascade hwf2 chosen
      · rw [List.map_set]
        have hfe : ((updateSrc d fs (updateSrc d fs
            (state.getD i default))).sampleSegment chosen).2.file
            = ((state.map (updateSrc d fs)).map (fun s => s.file)).getD i "" := by
          show (updateSrc d fs (updateSrc d fs (state.getD i default))).file = _
          rw [updateSrc_file, updateSrc_file, state1_files,
            List.getD_eq_getElem _ _ hilt,
            List.getD_eq_getElem _ _
              (show i < (state.map (fun s => s.file)).length by simpa using hilt),
            List.getElem_map]
        rw [hfe, List.getD_eq_getElem _ _ (by simpa using hilt),
          list_set_self _ i (by simpa using hilt), state1_files]
        exact hdist
      · intro r hr s'' hmem''
        have hsplit := List.mem_append.mp hr
        rcases hsplit with hrh | hrx
        · -- an old sample stays marked
          rcases List.mem_or_eq_of_mem_set hmem'' with hin | rfl
          · obtain ⟨src, hsrc, rfl⟩ := List.mem_map.mp hin
            exact markedSrc_updateSrc (hmarked r hrh src hsrc) d fs
          · exact markedSrc_cascade
              (markedSrc_updateSrc (markedSrc_updateSrc
                (hmarked r hrh _ hsrc0_mem) d fs) d fs) chosen
        · -- the new sample is marked
          have hrx' : r = (chosen.file, chosen.start, chosen.stop) := by
            simpa using hrx
          subst hrx'
          obtain ⟨p, hplen, hpe⟩ := List.mem_iff_getElem.mp hmem''
          rw [List.getElem_set] at hpe
          by_cases hip : i = p
          · rw [if_pos hip] at hpe
            subst hpe
            exact markedSrc_cascade_self hwf2
              (by rw [hcfile0, ← updateSrc_file d fs (state.getD i default),
                ← updateSrc_file d fs (updateSrc d fs (state.getD i default))])
          · rw [if_neg hip] at hpe
            subst hpe
            intro hfile''
            exfalso
            have hplen' : p < state.length := by
              simpa using hplen
            have hpu : p < (state.map (updateSrc d fs)).length := by
              simpa using hplen'
            have hpf : p < (state.map (fun s => s.file)).length := by
              simpa using hplen'
            have hif : i < (state.map (fun s => s.file)).length := by
              simpa using hilt
            have hfi : ((state.map (updateSrc d fs))[p]).file
                = (state.getD i default).file := by
              rw [hfile'']
              exact hcfile0
            have hne : (state.map (fun s => s.file))[p]
                ≠ (state.map (fun s => s.file))[i] := by
              rcases Nat.lt_or_ge p i with hpi | hpi
              · exact List.pairwise_iff_getElem.mp hdist p i hpf hif hpi
              · have hip' : i < p := Nat.lt_of_le_of_ne hpi (fun he => hip he)
                exact fun he => (List.pairwise_iff_getElem.mp hdist i p
                  hif hpf hip') he.symm
            apply hne
            rw [List.getElem_map, List.getElem_map]
            have h1 : (state[p]).file
                = ((state.map (updateSrc d fs))[p]).file := by
              rw [List.getElem_map, updateSrc_file]
            rw [h1, hfi, List.getD_eq_getElem _ _ hilt]
    · -- the new sample overlaps nothing previously returned
      intro x hx h hh hov
      have hx' : some (chosen.file, chosen.start, chosen.stop) = some x := hx
      injection hx' with hx2
      subst hx2
      have hm0 : MarkedSrc (state.getD i default) h := hmarked h hh _ hsrc0_mem
      have hfile0 : (state.getD i default).file = h.1 := by
        rw [← hcfile0]
        exact hov.1.symm
      have hov0 : rangesOverlap s0.start s0.stop h.2.1 h.2.2 := by
        rw [← hch_start, ← hch_stop]
        exact rangesOverlap_symm hov.2
      have hfalse := hm0 hfile0 p0 hp0 s0 hs0 hov0
      rw [← hch_filters, htrue] at hfalse
      cases hfalse

theorem collectionSample_step (d : ℚ) (fs : List VFilter) (j k : ℕ)
    (state : List FilteredVideoSource) (hist : List Seg)
    (hinv : StateInv state hist)
    (hnr : ∃ f ∈ fs, f.name = "not_is_repeat") :
    StateInv (collectionSample d fs j k state).2
      (hist ++ ((collectionSample d fs j k state).1).toList) ∧
    (∀ x, (collectionSample d fs j k state).1 = some x →
      ∀ h ∈ hist, ¬ segOverlap h x) := by
  cases he : eligibleIdxs d fs state with
  | nil =>
    rw [collectionSample_nil_eq he]
    obtain ⟨hwfAll, hdist, hmarked⟩ := hinv
    refine ⟨⟨?_, ?_, ?_⟩, ?_⟩
    · intro s'' hmem
      obtain ⟨src, hsrc, rfl⟩ := List.mem_map.mp hmem
      exact wfSrc_updateSrc (hwfAll src hsrc) d fs
    · rw [state1_files]
      exact hdist
    · intro r hr src' hmem
      have hr' : r ∈ hist := by simpa using hr
      obtain ⟨src, hsrc, rfl⟩ := List.mem_map.mp hmem
      exact markedSrc_updateSrc (hmarked r hr' src hsrc) d fs
    · intro x hx
      cases hx
  | cons i0 is =>
    rw [collectionSample_cons_eq he]
    exact collectionSample_step_cons d fs k state hist hinv hnr _
      (collectionSample_selected_mem (j := j) he)

theorem runSamples_pairwise (calls : List SampleCall) :
    ∀ (state : List FilteredVideoSource) (hist : List Seg),
      StateInv state hist →
      (∀ c ∈ calls, ∃ f ∈ c.filters, f.name = "not_is_repeat") →
      (∀ r ∈ (runSamples calls state).2, ∀ x, r = some x →
        ∀ h ∈ hist, ¬ segOverlap h x) ∧
      List.Pairwise
        (fun a b => ∀ x y : Seg, a = some x → b = some y → ¬ segOverlap x y)
        (runSamples calls state).2 := by
  induction calls with
  | nil =>
    intro state hist _ _
    exact ⟨fun r hr => absurd hr (List.not_mem_nil r), List.Pairwise.nil⟩
  | cons call rest ih =>
    intro state hist hinv hcalls
    have hnr : ∃ f ∈ call.filters, f.name = "not_is_repeat" :=
      hcalls call (List.mem_cons_self _ _)
    have hrest : ∀ c ∈ rest, ∃ f ∈ c.filters, f.name = "not_is_repeat" :=
      fun c hc => hcalls c (List.mem_cons_of_mem _ hc)
    obtain ⟨hinv', hnoov⟩ := collectionSample_step call.duration call.filters
      call.srcChoice call.segChoice state hist hinv hnr
    obtain ⟨ihA, ihB⟩ := ih
      (collectionSample call.duration call.filters
        call.srcChoice call.segChoice state).2
      (hist ++ ((collectionSample call.duration call.filters
        call.srcChoice call.segChoice state).1).toList) hinv' hrest
    constructor
    · intro r hr x hrx h hh
      rcases List.mem_cons.mp hr with rfl | hr2
      · exact hnoov x hrx h hh
      · exact ihA r hr2 x hrx h (List.mem_append_left _ hh)
    · refine List.Pairwise.cons ?_ ihB
      intro b hb x y hx hy
      have hxmem : x ∈ hist ++ ((collectionSample call.duration call.filters
          call.srcChoice call.segChoice state).1).toList := by
        apply List.mem_append_right
        rw [hx]
        exact List.mem_singleton.mpr rfl
      exact ihA b hb y hy x hxmem

/-- C4, counterexample.  The claim quantifies over every
`FilteredVideoSourceList`; with two sources over the *same* file the cascade
of the first sample stays inside the sampled source, so the second sample can
return the identical range from the other source even though `not_is_repeat`
is in the filter set. -/
theorem c4_counterexample :
    (runSamples
      [⟨2, [fNotIsRepeat], 0, 0⟩, ⟨2, [fNotIsRepeat], 0, 0⟩]
      [⟨"f", 1, [(2, [initFVS "f" 0 2])]⟩,
       ⟨"f", 1, [(2, [initFVS "f" 0 2])]⟩]).2
      = [some ("f", 0, 2), some ("f", 0, 2)] ∧
    segOverlap ("f", 0, 2) ("f", 0, 2) := by
  decide

/-- C4, amended.  For a collection whose sources are well-formed and have
pairwise *distinct* files, over any sequence of collection-level `sample`
calls whose filter sets all contain a filter named `not_is_repeat`, no
returned segment overlaps (same file, intersecting range) a segment returned
by an earlier call. -/
theorem c4_no_repeat_leak (calls : List SampleCall)
    (init : List FilteredVideoSource)
    (hwf : ∀ src ∈ init, WFSrc src)
    (hdist : (init.map (fun s => s.file)).Pairwise (fun a b => a ≠ b))
    (hfilters : ∀ c ∈ calls, ∃ f ∈ c.filters, f.name = "not_is_repeat") :
    List.Pairwise
      (fun a b => ∀ x y : Seg, a = some x → b = some y → ¬ segOverlap x y)
      (runSamples calls init).2 :=
  (runSamples_pairwise calls init []
    ⟨hwf, hdist, fun r hr => absurd hr (List.not_mem_nil r)⟩ hfilters).2

/-- C4 witness: one source with two tiles, sampled twice with
`not_is_repeat` active; the two returned samples do not overlap. -/
theorem c4_witness :
    List.Pairwise
      (fun a b => ∀ x y : Seg, a = some x → b = some y → ¬ segOverlap x y)
      (runSamples
        [⟨2, [fNotIsRepeat], 0, 0⟩, ⟨2, [fNotIsRepeat], 0, 0⟩]
        [⟨"a", 1, [(2, [initFVS "a" 0 2, initFVS "a" 2 4])]⟩]).2 :=
  c4_no_repeat_leak
    [⟨2, [fNotIsRepeat], 0, 0⟩, ⟨2, [fNotIsRepeat], 0, 0⟩]
    [⟨"a", 1, [(2, [initFVS "a" 0 2, initFVS "a" 2 4])]⟩]
    (by decide) (by decide) (by decide)

end Mugen
